import Mathlib

/-!
Verification of the nestjs-ttcache cache coordination engine.

This file shallowly embeds the repository's core components in Lean 4:
the JavaScript value model (truthiness drives many branches of the code),
the `CacheKeyGenerator` (canonicalization + SHA-256 fingerprints), the
`MemoryCacheProvider` / `RedisCacheProvider` / `CacheManagerAdapter`
backends, the `TTCacheService` coordination engine (get/set/delete/
invalidatePattern/readThrough/writeThrough, statistics, circuit breaker),
and an interleaving model of the stampede-protected read path built on
`CacheLock.withLock`.

Conventions: wall-clock time is an explicit `now : Nat` in milliseconds;
TTS are seconds as in the source; JS `x || y` on numbers/strings is
modeled by explicit truthiness tests; a fallible backend call is modeled
by a `fail : Bool` argument (the outcome of the call), and a fallible
fetch callback by an `Except Unit (Option JVal)` outcome.
-/

/-- Model of a JavaScript runtime value as the cache sees it: `undefined`,
`null`, booleans, (integer) numbers, strings, arrays and plain objects
(an object is an ordered list of key/value properties, as produced by
`Object.keys`). -/
inductive JVal where
  | undefined : JVal
  | jnull : JVal
  | jbool : Bool → JVal
  | jnum : Int → JVal
  | jstr : String → JVal
  | jarr : List JVal → JVal
  | jobj : List (String × JVal) → JVal

/-- True exactly for `undefined` (the `v !== undefined` tests in the source). -/
def JVal.isUndefined : JVal → Bool
  | .undefined => true
  | _ => false

/-- JavaScript truthiness: `undefined`, `null`, `false`, `0` and `""` are
falsy; every array and object is truthy. -/
def JVal.truthy : JVal → Bool
  | .undefined => false
  | .jnull => false
  | .jbool b => b
  | .jnum n => n != 0
  | .jstr s => s != ""
  | .jarr _ => true
  | .jobj _ => true

/-- JavaScript `String(x)` on the primitive values that reach `buildKey`. -/
def jsToString : JVal → String
  | .undefined => "undefined"
  | .jnull => "null"
  | .jbool b => if b then "true" else "false"
  | .jnum n => toString n
  | .jstr s => s
  | .jarr _ => ""
  | .jobj _ => "[object Object]"

/-- True when the value is `undefined` or `null` (the parts `buildKey`
filters out). -/
def JVal.isNullish : JVal → Bool
  | .undefined => true
  | .jnull => true
  | _ => false

namespace CacheKeyGenerator

/-- Source `CacheKeyGenerator.buildKey`: joins non-null/non-undefined
parts with `:` after `String(...)` conversion. -/
def buildKey (parts : List JVal) : String :=
  String.intercalate ":" ((parts.filter (fun p => !p.isNullish)).map jsToString)

/-- Source `CacheKeyGenerator.pattern`: `entityName[:type]:*`. -/
def pattern (entityName : String) (type : Option String) : String :=
  String.intercalate ":" (entityName :: (match type with
    | some t => [t, "*"]
    | none => ["*"]))

/-- Order on key/value pairs by key, modeling the default comparator of
`Object.keys(obj).sort()` (lexicographic string comparison). -/
def keyLe (a b : String × JVal) : Prop := a.1 ≤ b.1

instance : DecidableRel keyLe := fun a b => inferInstanceAs (Decidable (a.1 ≤ b.1))

instance : IsTotal (String × JVal) keyLe := ⟨fun a b => le_total a.1 b.1⟩

instance : IsTrans (String × JVal) keyLe := ⟨fun _ _ _ h h' => le_trans h h'⟩

mutual

/-- Source `CacheKeyGenerator.sortObject`: recursively sort object keys
alphabetically; arrays keep their order, only elements are canonicalized;
scalars are returned unchanged. -/
def sortObject : JVal → JVal
  | .jarr xs => .jarr (sortObjectList xs)
  | .jobj kvs => .jobj (List.insertionSort keyLe (sortObjectKVs kvs))
  | v => v

/-- Canonicalizes every element of an array (order preserved). -/
def sortObjectList : List JVal → List JVal
  | [] => []
  | x :: xs => sortObject x :: sortObjectList xs

/-- Canonicalizes every value of an object's property list. -/
def sortObjectKVs : List (String × JVal) → List (String × JVal)
  | [] => []
  | (k, v) :: kvs => (k, sortObject v) :: sortObjectKVs kvs

end

/-- Lowercase hexadecimal digit. -/
def hexDigit (n : Nat) : Char :=
  if n < 10 then Char.ofNat (48 + n) else Char.ofNat (87 + n)

/-- Escapes one character the way `JSON.stringify` escapes string data. -/
def escChar (c : Char) : String :=
  if c = '"' then "\\\""
  else if c = '\\' then "\\\\"
  else if c = '\n' then "\\n"
  else if c = '\r' then "\\r"
  else if c = '\t' then "\\t"
  else if c.toNat = 8 then "\\b"
  else if c.toNat = 12 then "\\f"
  else if c.toNat < 32 then
    "\\u00" ++ String.mk [hexDigit (c.toNat / 16), hexDigit (c.toNat % 16)]
  else String.singleton c

/-- JSON string literal with escaping. -/
def jsonQuote (s : String) : String :=
  "\"" ++ String.join (s.data.map escChar) ++ "\""

mutual

/-- Model of `JSON.stringify`. Properties whose value is `undefined` are
omitted; an `undefined` array element serializes as `null`. -/
def stringify : JVal → String
  | .undefined => "null"
  | .jnull => "null"
  | .jbool b => if b then "true" else "false"
  | .jnum n => toString n
  | .jstr s => jsonQuote s
  | .jarr xs => "[" ++ String.intercalate "," (stringifyList xs) ++ "]"
  | .jobj kvs => "\x7b" ++ String.intercalate "," (stringifyKVs kvs) ++ "\x7d"

/-- Serializes array elements in order. -/
def stringifyList : List JVal → List String
  | [] => []
  | x :: xs => stringify x :: stringifyList xs

/-- Serializes object properties in order, omitting `undefined` values. -/
def stringifyKVs : List (String × JVal) → List String
  | [] => []
  | (k, v) :: kvs =>
    if v.isUndefined then stringifyKVs kvs
    else (jsonQuote k ++ ":" ++ stringify v) :: stringifyKVs kvs

end

/-- UTF-8 encoding of one code point. -/
def utf8Encode (c : Char) : List Nat :=
  let n := c.toNat
  if n < 128 then [n]
  else if n < 2048 then [192 + n / 64, 128 + n % 64]
  else if n < 65536 then [224 + n / 4096, 128 + (n / 64) % 64, 128 + n % 64]
  else [240 + n / 262144, 128 + (n / 4096) % 64, 128 + (n / 64) % 64, 128 + n % 64]

/-- UTF-8 bytes of a string (what `createHash('sha256').update(str)` hashes). -/
def strBytes (s : String) : List Nat :=
  (s.data.map utf8Encode).flatten

end CacheKeyGenerator

namespace Sha256

/-- Reduction to a 32-bit word. -/
def w32 (n : Nat) : Nat := n % 4294967296

/-- Right rotation of a 32-bit word. -/
def rotr32 (s n : Nat) : Nat := w32 ((n >>> s) ||| (n <<< (32 - s)))

/-- SHA-256 `Ch` function. -/
def ch (x y z : Nat) : Nat := (x &&& y) ^^^ ((x ^^^ 4294967295) &&& z)

/-- SHA-256 `Maj` function. -/
def maj (x y z : Nat) : Nat := (x &&& y) ^^^ (x &&& z) ^^^ (y &&& z)

/-- SHA-256 `Σ₀`. -/
def bsig0 (x : Nat) : Nat := rotr32 2 x ^^^ rotr32 13 x ^^^ rotr32 22 x

/-- SHA-256 `Σ₁`. -/
def bsig1 (x : Nat) : Nat := rotr32 6 x ^^^ rotr32 11 x ^^^ rotr32 25 x

/-- SHA-256 `σ₀`. -/
def ssig0 (x : Nat) : Nat := rotr32 7 x ^^^ rotr32 18 x ^^^ (x >>> 3)

/-- SHA-256 `σ₁`. -/
def ssig1 (x : Nat) : Nat := rotr32 17 x ^^^ rotr32 19 x ^^^ (x >>> 10)

/-- SHA-256 round constants. -/
def roundK : List Nat :=
  [1116352408, 1899447441, 3049323471, 3921009573, 961987163,
   1508970993, 2453635748, 2870763221, 3624381080, 310598401,
   607225278, 1426881987, 1925078388, 2162078206, 2614888103,
   3248222580, 3835390401, 4022224774, 264347078, 604807628,
   770255983, 1249150122, 1555081692, 1996064986, 2554220882,
   2821834349, 2952996808, 3210313671, 3336571891, 3584528711,
   113926993, 338241895, 666307205, 773529912, 1294757372,
   1396182291, 1695183700, 1986661051, 2177026350, 2456956037,
   2730485921, 2820302411, 3259730800, 3345764771, 3516065817,
   3600352804, 4094571909, 275423344, 430227734, 506948616,
   659060556, 883997877, 958139571, 1322822218, 1537002063,
   1747873779, 1955562222, 2024104815, 2227730452, 2361852424,
   2428436474, 2756734187, 3204031479, 3329325298]

/-- SHA-256 initial hash value. -/
def initH : List Nat :=
  [1779033703, 3144134277, 1013904242, 2773480762,
   1359893119, 2600822924, 528734635, 1541459225]

/-- Big-endian byte encoding of a number over `len` bytes. -/
def bytesBE (len n : Nat) : List Nat :=
  (List.range len).map (fun i => (n >>> (8 * (len - 1 - i))) % 256)

/-- Appends the SHA-256 padding to a byte string. -/
def pad (msg : List Nat) : List Nat :=
  let L := msg.length
  let k := (119 - L % 64) % 64
  msg ++ [128] ++ List.replicate k 0 ++ bytesBE 8 (8 * L)

/-- Splits a byte string into 64-byte blocks. -/
def chunks64 (l : List Nat) : List (List Nat) :=
  if h : l.length = 0 then []
  else
    have : (l.drop 64).length < l.length := by
      simp only [List.length_drop]
      omega
    l.take 64 :: chunks64 (l.drop 64)
termination_by l.length

/-- The 16 initial 32-bit words of a 64-byte block. -/
def words16 (block : List Nat) : List Nat :=
  (List.range 16).map (fun i =>
    block.getD (4 * i) 0 * 16777216 + block.getD (4 * i + 1) 0 * 65536 +
    block.getD (4 * i + 2) 0 * 256 + block.getD (4 * i + 3) 0)

/-- Extends the 16-word schedule to 64 words. -/
def extendSchedule (ws : List Nat) : List Nat :=
  (List.range 48).foldl (fun acc _ =>
    let n := acc.length
    acc ++ [w32 (ssig1 (acc.getD (n - 2) 0) + acc.getD (n - 7) 0 +
      ssig0 (acc.getD (n - 15) 0) + acc.getD (n - 16) 0)]) ws

/-- One SHA-256 round on the working variables `[a,b,c,d,e,f,g,h]`. -/
def round (st : List Nat) (kw : Nat × Nat) : List Nat :=
  match st with
  | [a, b, c, d, e, f, g, h] =>
    let t1 := w32 (h + bsig1 e + ch e f g + kw.1 + kw.2)
    let t2 := w32 (bsig0 a + maj a b c)
    [w32 (t1 + t2), a, b, c, w32 (d + t1), e, f, g]
  | other => other

/-- Compression of one block into the running hash. -/
def compress (h : List Nat) (blockWords : List Nat) : List Nat :=
  let ws := extendSchedule blockWords
  let fin := (roundK.zip ws).foldl round h
  List.zipWith (fun x y => w32 (x + y)) h fin

/-- SHA-256 digest (32 bytes) of a byte string. -/
def sha256 (msg : List Nat) : List Nat :=
  let hs := (chunks64 (pad msg)).foldl (fun h c => compress h (words16 c)) initH
  (hs.map (bytesBE 4)).flatten

/-- Lowercase hexadecimal rendering of a byte string. -/
def toHexStr (bytes : List Nat) : String :=
  String.join (bytes.map (fun b =>
    String.mk [CacheKeyGenerator.hexDigit (b / 16), CacheKeyGenerator.hexDigit (b % 16)]))

end Sha256

namespace CacheKeyGenerator

/-- Source `CacheKeyGenerator.hashObject`: canonicalize, `JSON.stringify`,
SHA-256, hex digest truncated to its first 16 characters. -/
def hashObject (o : JVal) : String :=
  (Sha256.toHexStr (Sha256.sha256 (strBytes (stringify (sortObject o))))).take 16

/-- Source `CacheKeyGenerator.forCount`: `entityName:count:<hash>`, with the
literal `all` when `options` is falsy (absent). -/
def forCount (entityName : String) (options : JVal) : String :=
  buildKey [.jstr entityName, .jstr "count",
    .jstr (if options.truthy then hashObject options else "all")]

end CacheKeyGenerator

/-- The `@CacheableEntity` metadata attached to an entity class, as read by
`getCacheOptions` (after decoration-time defaults were applied). -/
structure CacheMeta where
  ttl : Option Nat := some 3600
  pref : Option String := none
  cacheRelations : Bool := false
  writeThrough : Bool := true

/-- An entity instance as the key generator sees it: its constructor name,
its decorator metadata (`none` when the class is not decorated), the
property names collected by `@CacheKey` decorators, and its own enumerable
properties. A property that is absent reads as `undefined`. -/
structure Entity where
  ctorName : String
  meta : Option CacheMeta
  cacheKeys : List String
  fields : List (String × JVal)

/-- JavaScript property access `entity[key]`. -/
def Entity.getField (e : Entity) (k : String) : JVal :=
  match e.fields.find? (fun p => p.1 == k) with
  | some p => p.2
  | none => .undefined

/-- Source `isCacheable`: the class carries `@CacheableEntity` metadata. -/
def isCacheable (e : Entity) : Bool := e.meta.isSome

namespace CacheKeyGenerator

/-- One element of a JavaScript `Array.prototype.join`: `null` and
`undefined` render as the empty string. -/
def jsJoinPiece (v : JVal) : String :=
  if v.isNullish then "" else jsToString v

/-- JavaScript `values.join(sep)`. -/
def jsJoin (sep : String) (vs : List JVal) : String :=
  String.intercalate sep (vs.map jsJoinPiece)

/-- The composite key patterns hard-coded in `extractCompositeKey`. -/
def compositePatterns : List (List String) :=
  [["userId", "organizationId"], ["tenantId", "id"], ["companyId", "id"]]

/-- Source `CacheKeyGenerator.extractCompositeKey`: first hard-coded pattern
whose fields are all defined, values joined with `_`. -/
def extractCompositeKey (e : Entity) : Option String :=
  compositePatterns.findSome? (fun pat =>
    let values := (pat.map e.getField).filter (fun v => !v.isUndefined)
    if values.length = pat.length then some (jsJoin "_" values) else none)

/-- Source `CacheKeyGenerator.forEntity`. Priority: custom `@CacheKey`
fields when at least one is defined, then a truthy `id`, then a composite
pattern; otherwise the `Cannot generate cache key` error. -/
def forEntity (e : Entity) (entityName : Option String) : Except String String :=
  let name := match entityName with
    | some s => if s = "" then e.ctorName else s
    | none => e.ctorName
  let pref := match e.meta with
    | some m => match m.pref with
      | some p => if p = "" then name else p
      | none => name
    | none => name
  let keyValues := (e.cacheKeys.map e.getField).filter (fun v => !v.isUndefined)
  if 0 < e.cacheKeys.length ∧ 0 < keyValues.length then
    .ok (buildKey ([.jstr pref, .jstr "custom"] ++ keyValues))
  else if (e.getField "id").truthy then
    .ok (buildKey [.jstr pref, .jstr "id", e.getField "id"])
  else match extractCompositeKey e with
    | some ck => .ok (buildKey [.jstr pref, .jstr "composite", .jstr ck])
    | none => .error ("Cannot generate cache key for entity " ++ name ++
        ": no primary key found")

end CacheKeyGenerator

/-- Redis-style glob matching (`*` = any sequence, `?` = any character),
the semantics of `patternToRegex` in both providers. -/
def globMatch : List Char → List Char → Bool
  | [], [] => true
  | [], _ :: _ => false
  | '*' :: ps, [] => globMatch ps []
  | '*' :: ps, k :: ks => globMatch ps (k :: ks) || globMatch ('*' :: ps) ks
  | '?' :: _, [] => false
  | '?' :: ps, _ :: ks => globMatch ps ks
  | _ :: _, [] => false
  | p :: ps, k :: ks => (p == k) && globMatch ps ks
termination_by p k => (p.length, k.length)

/-- Glob matching on strings. -/
def globMatchStr (pat key : String) : Bool := globMatch pat.data key.data

/-- One entry of the `MemoryCacheProvider`'s backing `Map`. -/
structure MemEntry (α : Type) where
  value : α
  expiresAt : Option Nat := none

/-- The `MemoryCacheProvider`'s backing `Map` (insertion-ordered). The
per-key eviction timers are not modeled; expiry is enforced lazily by
`get`/`exists`, exactly as those methods do in the source. -/
structure MemCache (α : Type) where
  entries : List (String × MemEntry α) := []

namespace MemCache

/-- Physical presence of a key in the `Map` (expired entries included,
as for JavaScript `Map.has`/`Map.delete`). -/
def containsKey (c : MemCache α) (k : String) : Bool :=
  c.entries.any (fun p => p.1 == k)

/-- JavaScript `Map.get`. -/
def lookup (c : MemCache α) (k : String) : Option (MemEntry α) :=
  (c.entries.find? (fun p => p.1 == k)).map (fun p => p.2)

/-- JavaScript `Map.set`: updates in place, or appends a new key. -/
def mapSet (c : MemCache α) (k : String) (e : MemEntry α) : MemCache α :=
  if c.entries.any (fun p => p.1 == k) then
    ⟨c.entries.map (fun p => if p.1 == k then (k, e) else p)⟩
  else ⟨c.entries ++ [(k, e)]⟩

/-- JavaScript `Map.delete`: returns whether the key was present. -/
def mapDelete (c : MemCache α) (k : String) : Bool × MemCache α :=
  (c.containsKey k, ⟨c.entries.filter (fun p => !(p.1 == k))⟩)

/-- The `entry.expiresAt && entry.expiresAt < Date.now()` test. -/
def expiredAt (now : Nat) (e : MemEntry α) : Bool :=
  match e.expiresAt with
  | some t => t != 0 && decide (t < now)
  | none => false

/-- Source `MemoryCacheProvider.get`: miss on absence, lazily delete and
miss on expiry, else the stored value. -/
def memGet (now : Nat) (c : MemCache α) (k : String) : Option α × MemCache α :=
  match c.lookup k with
  | none => (none, c)
  | some e =>
    if expiredAt now e then (none, (c.mapDelete k).2)
    else (some e.value, c)

/-- Source `MemoryCacheProvider.set`: a truthy `ttl` (seconds) becomes an
absolute expiry instant `now + ttl * 1000` (milliseconds). -/
def memSet (now : Nat) (c : MemCache α) (k : String) (v : α) (ttl : Option Nat) :
    MemCache α :=
  c.mapSet k
    { value := v
      expiresAt := match ttl with
        | some t => if t = 0 then none else some (now + t * 1000)
        | none => none }

/-- Source `MemoryCacheProvider.delete`: `Map.delete`, true iff present. -/
def memDelete (c : MemCache α) (k : String) : Bool × MemCache α :=
  c.mapDelete k

/-- Source `MemoryCacheProvider.exists`: false on absence, lazily delete
and false on expiry. -/
def memExists (now : Nat) (c : MemCache α) (k : String) : Bool × MemCache α :=
  match c.lookup k with
  | none => (false, c)
  | some e =>
    if expiredAt now e then (false, (c.mapDelete k).2)
    else (true, c)

/-- Source `MemoryCacheProvider.ttl`: `-2` when absent, `-1` without
expiry, else the remaining whole seconds (`-2` when none remain). -/
def memTtl (now : Nat) (c : MemCache α) (k : String) : Int :=
  match c.lookup k with
  | none => -2
  | some e =>
    match e.expiresAt with
    | none => -1
    | some t =>
      if t = 0 then -1
      else
        let remaining := ((t : Int) - (now : Int)).fdiv 1000
        if 0 < remaining then remaining else -2

/-- Source `MemoryCacheProvider.deletePattern`: collects the raw `Map`
keys matching the pattern, deletes them, returns their count. -/
def memDeletePattern (c : MemCache α) (pat : String) : Nat × MemCache α :=
  ((c.entries.filter (fun p => globMatchStr pat p.1)).length,
   ⟨c.entries.filter (fun p => !globMatchStr pat p.1)⟩)

end MemCache

/-- A Redis database modeled as a string-to-string map (values arrive
already serialized by `RedisCacheProvider.set`). -/
structure RedisStore where
  entries : List (String × String) := []

/-- Redis `DEL key`: number of keys removed. -/
def redisDel (s : RedisStore) (k : String) : Nat × RedisStore :=
  ((if s.entries.any (fun p => p.1 == k) then 1 else 0),
   ⟨s.entries.filter (fun p => !(p.1 == k))⟩)

/-- Source `RedisCacheProvider.delete`: `(await redis.del(key)) > 0`. -/
def redisProviderDelete (s : RedisStore) (k : String) : Bool × RedisStore :=
  let (n, s') := redisDel s k
  (decide (0 < n), s')

/-- The external cache-manager store wrapped by `CacheManagerAdapter`,
modeled as a plain map; `del` removes the key and reports nothing. -/
structure CmStore (α : Type) where
  entries : List (String × α) := []

/-- The cache-manager `del` operation. -/
def cmDel (s : CmStore α) (k : String) : CmStore α :=
  ⟨s.entries.filter (fun p => !(p.1 == k))⟩

/-- Source `CacheManagerAdapter.delete`: `await cacheManager.del(key);
return true` — unconditionally true. -/
def adapterDelete (s : CmStore α) (k : String) : Bool × CmStore α :=
  (true, cmDel s k)

/-- Physical presence of a key in a cache-manager store. -/
def cmContains (s : CmStore α) (k : String) : Bool :=
  s.entries.any (fun p => p.1 == k)

/-- JavaScript truthiness for whatever value type the cache stores. -/
class JsTruthy (α : Type) where
  truthy : α → Bool

instance : JsTruthy JVal := ⟨JVal.truthy⟩

instance : JsTruthy Entity := ⟨fun _ => true⟩

/-- Truthiness of a `T | null` result (`null` is falsy). -/
def optTruthy [JsTruthy α] : Option α → Bool
  | some v => JsTruthy.truthy v
  | none => false

/-- JavaScript `a || b` on optional numbers (`0` and `undefined` falsy). -/
def jsOrNat (a b : Option Nat) : Option Nat :=
  match a with
  | some n => if n = 0 then b else some n
  | none => b

/-- JavaScript `a || d` on an optional number against a default. -/
def jsOrNatD (a : Option Nat) (d : Nat) : Nat :=
  match a with
  | some n => if n = 0 then d else n
  | none => d

/-- The `circuitBreaker` option block of `TTCacheModuleOptions`. -/
structure CircuitBreakerConfig where
  enabled : Bool
  threshold : Nat
  timeout : Nat := 0
  resetTimeout : Nat := 0

/-- The engine's options after the constructor merged its defaults
(`defaultTTL: 3600`; the remaining flags default to absent/false). -/
structure EngineOptions where
  defaultTTL : Option Nat := some 3600
  keyPref : Option String := none
  stampedeProtection : Bool := false
  staleWhileRevalidate : Bool := false
  staleTTL : Option Nat := none
  invalidateRelations : Bool := false
  circuitBreaker : Option CircuitBreakerConfig := none

/-- The `CacheStatistics` counters. -/
structure Statistics where
  hits : Nat := 0
  misses : Nat := 0
  writes : Nat := 0
  deletes : Nat := 0
  errors : Nat := 0
  hitRate : Rat := 0
  averageLoadTime : Rat := 0
  averageWriteTime : Rat := 0

/-- The mutable instance state of `TTCacheService`: the backend (modeled
by the in-process provider), statistics, rolling timing windows, and the
circuit breaker's flag and error counter. -/
structure EngineState (α : Type) where
  cache : MemCache α := {}
  stats : Statistics := {}
  loadTimes : List Nat := []
  writeTimes : List Nat := []
  cbOpen : Bool := false
  cbErrors : Nat := 0

/-- Source `getFullKey`: apply the configured key prefix when truthy. -/
def getFullKey (opts : EngineOptions) (key : String) : String :=
  match opts.keyPref with
  | some p => if p = "" then key else p ++ ":" ++ key
  | none => key

/-- Source `handleCircuitBreakerError`: when the breaker is configured and
enabled, count the error and open at the threshold. -/
def handleCircuitBreakerError (opts : EngineOptions) (st : EngineState α) :
    EngineState α :=
  match opts.circuitBreaker with
  | some cb =>
    if cb.enabled then
      let e := st.cbErrors + 1
      if cb.threshold ≤ e then { st with cbErrors := e, cbOpen := true }
      else { st with cbErrors := e }
    else st
  | none => st

/-- Source `closeCircuitBreaker` (run when `resetTimeout` elapses):
close the breaker and reset its error counter. -/
def closeCircuitBreaker (st : EngineState α) : EngineState α :=
  { st with cbOpen := false, cbErrors := 0 }

/-- Source `updateHitRate`. -/
def updateHitRate (s : Statistics) : Statistics :=
  let total := s.hits + s.misses
  { s with hitRate := if 0 < total then (s.hits : Rat) / (total : Rat) else 0 }

/-- Source `recordLoadTime`: rolling window of the last 100 samples. -/
def recordLoadTime (st : EngineState α) (t : Nat) : EngineState α :=
  let l0 := st.loadTimes ++ [t]
  let l := if 100 < l0.length then l0.drop 1 else l0
  { st with
    loadTimes := l
    stats := { st.stats with averageLoadTime := (l.sum : Rat) / (l.length : Rat) } }

/-- Source `recordWriteTime`: rolling window of the last 100 samples. -/
def recordWriteTime (st : EngineState α) (t : Nat) : EngineState α :=
  let l0 := st.writeTimes ++ [t]
  let l := if 100 < l0.length then l0.drop 1 else l0
  { st with
    writeTimes := l
    stats := { st.stats with averageWriteTime := (l.sum : Rat) / (l.length : Rat) } }

/-- Source `TTCacheService.get`. `fail` is the backend call's outcome:
when true the call throws and the catch branch runs (feed the breaker,
return `null`). When the breaker is open the backend is never reached. -/
def engineGet (opts : EngineOptions) (now : Nat) (st : EngineState α)
    (key : String) (fail : Bool) : Option α × EngineState α :=
  if st.cbOpen then (none, st)
  else if fail then (none, handleCircuitBreakerError opts st)
  else
    let fullKey := getFullKey opts key
    let (v, c') := MemCache.memGet now st.cache fullKey
    (v, { st with cache := c' })

/-- Source `TTCacheService.set`: write the entry, shadow-write the
`stale:`-prefixed copy when stale-while-revalidate is on and the TTL is
truthy, count the write; on a backend failure count the error and feed
the breaker; when the breaker is open do nothing. -/
def engineSet (opts : EngineOptions) (now : Nat) (st : EngineState α)
    (key : String) (v : α) (ttl : Option Nat) (fail : Bool) : EngineState α :=
  if st.cbOpen then st
  else if fail then
    handleCircuitBreakerError opts
      { st with stats := { st.stats with errors := st.stats.errors + 1 } }
  else
    let fullKey := getFullKey opts key
    let cacheTTL := jsOrNat ttl opts.defaultTTL
    let c1 := MemCache.memSet now st.cache fullKey v cacheTTL
    let c2 := match cacheTTL with
      | some n =>
        if opts.staleWhileRevalidate && (n != 0) then
          MemCache.memSet now c1 ("stale:" ++ fullKey) v
            (some (n + jsOrNatD opts.staleTTL 300))
        else c1
      | none => c1
    { st with
      cache := c2
      stats := { st.stats with writes := st.stats.writes + 1 } }

/-- Source `TTCacheService.delete`: delete the entry (and its stale
shadow), count the delete, return the provider's result; on a backend
failure count the error and return false. -/
def engineDelete (opts : EngineOptions) (st : EngineState α) (key : String)
    (fail : Bool) : Bool × EngineState α :=
  if fail then
    (false, { st with stats := { st.stats with errors := st.stats.errors + 1 } })
  else
    let fullKey := getFullKey opts key
    let (r, c1) := MemCache.memDelete st.cache fullKey
    let c2 := if opts.staleWhileRevalidate then
        (MemCache.memDelete c1 ("stale:" ++ fullKey)).2
      else c1
    (r, { st with
      cache := c2
      stats := { st.stats with deletes := st.stats.deletes + 1 } })

/-- Source `TTCacheService.invalidatePattern`: pattern-delete the entries
(and stale shadows), add the count to the delete counter, return it; on a
backend failure count the error and return 0. -/
def engineInvalidatePattern (opts : EngineOptions) (st : EngineState α)
    (pat : String) (fail : Bool) : Nat × EngineState α :=
  if fail then
    (0, { st with stats := { st.stats with errors := st.stats.errors + 1 } })
  else
    let fullPattern := getFullKey opts pat
    let (cnt, c1) := MemCache.memDeletePattern st.cache fullPattern
    let c2 := if opts.staleWhileRevalidate then
        (MemCache.memDeletePattern c1 ("stale:" ++ fullPattern)).2
      else c1
    (cnt, { st with
      cache := c2
      stats := { st.stats with deletes := st.stats.deletes + cnt } })

/-- The catch branch of `readThrough` after the fetch callback threw:
count the error, feed the breaker, and if the breaker is (now) open call
the fetch callback once more and return its outcome, else rethrow.
`calls` counts the fetch invocations made before the throw was handled. -/
def readThroughCatch (opts : EngineOptions) (st : EngineState α)
    (fetchRes : Except Unit (Option α)) (calls : Nat) (u : Unit) :
    Except Unit (Option α) × Nat × EngineState α :=
  let st1 := handleCircuitBreakerError opts
    { st with stats := { st.stats with errors := st.stats.errors + 1 } }
  if st1.cbOpen then (fetchRes, calls + 1, st1)
  else (.error u, calls, st1)

/-- Source `CacheLock.release` for `withLock`'s lock name: delete the
`lock:`-prefixed key directly on the provider (no engine prefix). -/
def lockRelease (lockName : String) (st : EngineState α) :
    EngineState α :=
  { st with cache := (MemCache.memDelete st.cache ("lock:" ++ lockName)).2 }

/-- Source `TTCacheService.readThrough`, with a healthy cache backend.
The fetch callback's outcome is `fetchRes` (a thrown error or `T|null`),
identical on every invocation; `lockVal` stands for the random string a
`CacheLock` stores under its lock key. Because the model is sequential,
an `acquire` whose first `tryAcquire` finds the lock key present fails
after its retry budget (nothing can change between retries), and one
whose first attempt finds it absent succeeds immediately. Returns the
call's outcome, the number of fetch invocations, and the new state. -/
def readThrough [JsTruthy α] (opts : EngineOptions) (now : Nat)
    (st : EngineState α) (key : String) (fetchRes : Except Unit (Option α))
    (lockVal : α) (ttl : Option Nat) :
    Except Unit (Option α) × Nat × EngineState α :=
  let (cached, st1) := engineGet opts now st key false
  if optTruthy cached then
    (.ok cached, 0,
     { st1 with stats := updateHitRate { st1.stats with hits := st1.stats.hits + 1 } })
  else
    let st2 := { st1 with stats := { st1.stats with misses := st1.stats.misses + 1 } }
    if opts.stampedeProtection then
      let lockName := "fetch:" ++ key
      let lockKey := "lock:" ++ lockName
      let (lockHeld, c1) := MemCache.memExists now st2.cache lockKey
      let st3 := { st2 with cache := c1 }
      if lockHeld then
        -- acquisition failed: `onLockFailed`
        if opts.staleWhileRevalidate then
          let (staleData, st4) := engineGet opts now st3 ("stale:" ++ key) false
          if optTruthy staleData then (.ok staleData, 0, st4)
          else
            match fetchRes with
            | .ok data => (.ok data, 1, st4)
            | .error u => readThroughCatch opts st4 fetchRes 1 u
        else
          match fetchRes with
          | .ok data => (.ok data, 1, st3)
          | .error u => readThroughCatch opts st3 fetchRes 1 u
      else
        -- acquired: set the lock key, run the body, release in `finally`
        let st4 := { st3 with
          cache := MemCache.memSet now st3.cache lockKey lockVal (some 30) }
        let (cached2, st5) := engineGet opts now st4 key false
        if optTruthy cached2 then
          (.ok cached2, 0, lockRelease lockName st5)
        else
          match fetchRes with
          | .ok data =>
            let st6 := match data with
              | some v =>
                if JsTruthy.truthy v then
                  engineSet opts now st5 key v (jsOrNat ttl opts.defaultTTL) false
                else st5
              | none => st5
            (.ok data, 1, lockRelease lockName (recordLoadTime st6 0))
          | .error u =>
            readThroughCatch opts (lockRelease lockName st5) fetchRes 1 u
    else
      match fetchRes with
      | .ok data =>
        let st6 := match data with
          | some v =>
            if JsTruthy.truthy v then
              engineSet opts now st2 key v (jsOrNat ttl opts.defaultTTL) false
            else st2
          | none => st2
        (.ok data, 1, recordLoadTime st6 0)
      | .error u => readThroughCatch opts st2 fetchRes 1 u

/-- Source `TTCacheService.writeThrough`, with a healthy cache backend.
The persist callback's (`repository.save`) outcome is `persist`. On
success the saved entity is cached under its generated key and coarse
caches are invalidated when configured; on failure (or a key-generation
throw) the error propagates after the statistics/breaker update. -/
def writeThrough (opts : EngineOptions) (now : Nat) (st : EngineState Entity)
    (persist : Except Unit Entity) (ttl : Option Nat) :
    Except Unit Entity × EngineState Entity :=
  match persist with
  | .error u =>
    (.error u, handleCircuitBreakerError opts
      { st with stats := { st.stats with errors := st.stats.errors + 1 } })
  | .ok saved =>
    if isCacheable saved then
      match CacheKeyGenerator.forEntity saved none with
      | .error _ =>
        (.error (), handleCircuitBreakerError opts
          { st with stats := { st.stats with errors := st.stats.errors + 1 } })
      | .ok cacheKey =>
        let cacheTTL := jsOrNat ttl
          (jsOrNat (saved.meta.bind (fun m => m.ttl)) opts.defaultTTL)
        let st1 := engineSet opts now st cacheKey saved cacheTTL false
        let st2 := if opts.invalidateRelations then
            (engineInvalidatePattern opts st1
              (CacheKeyGenerator.pattern saved.ctorName none) false).2
          else st1
        (.ok saved, recordWriteTime st2 0)
    else (.ok saved, recordWriteTime st 0)

/-- Checks that a key list has no duplicates (a property list that could
come from a real JavaScript object). -/
def nodupKeysB : List String → Bool
  | [] => true
  | k :: ks => !(ks.contains k) && nodupKeysB ks

mutual

/-- A value that can occur as a JavaScript runtime value: object property
lists never repeat a key (recursively). -/
def JVal.wfB : JVal → Bool
  | .jarr xs => wfListB xs
  | .jobj kvs => nodupKeysB (kvs.map Prod.fst) && wfKVsB kvs
  | _ => true

/-- Well-formedness of every element of an array. -/
def wfListB : List JVal → Bool
  | [] => true
  | x :: xs => x.wfB && wfListB xs

/-- Well-formedness of every value of a property list. -/
def wfKVsB : List (String × JVal) → Bool
  | [] => true
  | (_, v) :: kvs => v.wfB && wfKVsB kvs

end

mutual

/-- The spec's recursive key-wise permutation relation between two values:
scalars must be equal, arrays are related pointwise (order preserved),
and two objects are related when their property lists are permutations of
one another with recursively related values. -/
def JPerm : JVal → JVal → Prop
  | .jarr xs, .jarr ys => JPermList xs ys
  | .jobj kvs₁, .jobj kvs₂ => ∃ l, l.Perm kvs₁ ∧ JPermKVs l kvs₂
  | a, b => a = b

/-- Pointwise relatedness of array elements. -/
def JPermList : List JVal → List JVal → Prop
  | [], [] => True
  | x :: xs, y :: ys => JPerm x y ∧ JPermList xs ys
  | _, _ => False

/-- Pointwise relatedness of property lists: equal keys, related values. -/
def JPermKVs : List (String × JVal) → List (String × JVal) → Prop
  | [], [] => True
  | (k₁, v₁) :: t₁, (k₂, v₂) :: t₂ => k₁ = k₂ ∧ JPerm v₁ v₂ ∧ JPermKVs t₁ t₂
  | _, _ => False

end

/-- The cold key the concurrent `readThrough` callers contend on. -/
def c4Key : String := "k"

/-- The lock name `readThrough` passes to `withLock`. -/
def c4LockName : String := "fetch:" ++ c4Key

/-- The provider key the `CacheLock` stores its token under. -/
def c4LockKey : String := "lock:" ++ c4LockName

/-- Program counter of one concurrent `readThrough` caller on the
stampede-protected path, one state per `await` of a backend operation.
`testLock`/`setLock` are the two halves of `CacheLock.tryAcquire`
(`exists(lockKey)`, then `set(lockKey, …)`); a failed `exists` retries.
`check` is the double-check `get` after acquisition, `doFetch` the fetch
callback, `store` the `set` of the fetched value, `release` the lock
delete in `withLock`'s `finally`, and `done r` carries the caller's
result. -/
inductive Pc (α : Type) where
  | start
  | testLock
  | setLock
  | check
  | doFetch
  | store (v : α)
  | release (r : Option α)
  | done (r : Option α)

/-- The shared backend plus both callers' control state and a count of
fetch-callback invocations. -/
structure Sys (α : Type) where
  pcA : Pc α
  pcB : Pc α
  cache : MemCache α
  fetchCount : Nat

/-- One atomic step of a single caller. `fetchVal` is the (deterministic)
fetch callback result, `lockVal` the token the lock stores, and
`atomicAcquire` selects between the source's two-step exists-then-set
acquisition (`false`) and an atomic set-if-absent (`true`). The engine
wrappers run with default options (no prefix, breaker closed, no stale
shadow), so they reduce to the provider calls shown. -/
def stepProc [JsTruthy α] (now : Nat) (fetchVal : Option α) (lockVal : α)
    (atomicAcquire : Bool) (pc : Pc α) (cache : MemCache α) (cnt : Nat) :
    Pc α × MemCache α × Nat :=
  match pc with
  | .start =>
    let (v, c') := MemCache.memGet now cache c4Key
    (if optTruthy v then .done v else .testLock, c', cnt)
  | .testLock =>
    let (ex, c') := MemCache.memExists now cache c4LockKey
    if ex then (.testLock, c', cnt)
    else if atomicAcquire then
      (.check, MemCache.memSet now c' c4LockKey lockVal (some 30), cnt)
    else (.setLock, c', cnt)
  | .setLock =>
    (.check, MemCache.memSet now cache c4LockKey lockVal (some 30), cnt)
  | .check =>
    let (v, c') := MemCache.memGet now cache c4Key
    (if optTruthy v then .release v else .doFetch, c', cnt)
  | .doFetch =>
    ((match fetchVal with
      | some v => if JsTruthy.truthy v then .store v else .release (some v)
      | none => .release none), cache, cnt + 1)
  | .store v =>
    (.release (some v), MemCache.memSet now cache c4Key v (some 3600), cnt)
  | .release r =>
    (.done r, (MemCache.memDelete cache c4LockKey).2, cnt)
  | .done r => (.done r, cache, cnt)

/-- One system step: the scheduled caller (`true` = A) moves. -/
def stepSys [JsTruthy α] (now : Nat) (fetchVal : Option α) (lockVal : α)
    (atomicAcquire : Bool) (s : Sys α) (pid : Bool) : Sys α :=
  if pid then
    let (pc', c', cnt') := stepProc now fetchVal lockVal atomicAcquire
      s.pcA s.cache s.fetchCount
    { s with pcA := pc', cache := c', fetchCount := cnt' }
  else
    let (pc', c', cnt') := stepProc now fetchVal lockVal atomicAcquire
      s.pcB s.cache s.fetchCount
    { s with pcB := pc', cache := c', fetchCount := cnt' }

/-- Runs a schedule (a list of caller choices) from a system state. -/
def runSys [JsTruthy α] (now : Nat) (fetchVal : Option α) (lockVal : α)
    (atomicAcquire : Bool) (sched : List Bool) (s : Sys α) : Sys α :=
  sched.foldl (stepSys now fetchVal lockVal atomicAcquire) s

/-- Both callers at their first backend call, cold empty cache. -/
def initSys (α : Type) : Sys α := ⟨.start, .start, {}, 0⟩

/-- True for the program points inside `withLock`'s critical section
(from just after a successful acquisition to just before the release
completes). -/
def Pc.inCS : Pc α → Bool
  | .check => true
  | .doFetch => true
  | .store _ => true
  | .release _ => true
  | _ => false

/-- Every entry of the shared cache that the stampede path can create is
either the lock token or the fetched data, both unexpired (all writes in
one contention window carry `now`-based expiries); keys are unique. -/
def C4WF (now : Nat) (lockVal w : α) (c : MemCache α) : Prop :=
  (c.entries.map Prod.fst).Nodup ∧
  ∀ p ∈ c.entries,
    (p.1 = c4LockKey ∧ p.2 = ⟨lockVal, some (now + 30000)⟩) ∨
    (p.1 = c4Key ∧ p.2 = ⟨w, some (now + 3600000)⟩)

/-- The lock key is physically present. -/
def lockHeldB (s : Sys α) : Bool := MemCache.containsKey s.cache c4LockKey

/-- The data stored under the contended key, if any. -/
def cachedData (s : Sys α) : Option α :=
  (MemCache.lookup s.cache c4Key).map (fun e => e.value)


/-- Strict variant of `keyLe`, used to show canonicalized objects with
duplicate-free keys are uniquely sorted. -/
def keyLt (a b : String × JVal) : Prop := a.1 < b.1

instance : DecidableRel keyLt := fun a b => inferInstanceAs (Decidable (a.1 < b.1))

instance : IsAntisymm (String × JVal) keyLt :=
  ⟨fun _ _ h h' => absurd h' (not_lt.mpr (le_of_lt h))⟩

/-- True at a `store` program point (the value is fetched but not yet
written back). -/
def Pc.isStore : Pc α → Bool
  | .store _ => true
  | _ => false

/-- Per-caller invariant clauses of the atomic-acquisition stampede run,
relating a caller's program point to the fetch count and the currently
cached data. -/
def pcOK (w : α) (cnt : Nat) (data : Option α) : Pc α → Prop
  | .setLock => False
  | .doFetch => data = none ∧ cnt = 0
  | .store v => v = w ∧ cnt = 1 ∧ data = none
  | .release r => r = some w ∧ data = some w
  | .done r => r = some w ∧ cnt = 1
  | _ => True

/-- The data stored under the contended key in a cache, if any. -/
def dataAt (c : MemCache α) : Option α :=
  (c.lookup c4Key).map (fun e => e.value)

/-- Invariant of the two-caller stampede system under atomic lock
acquisition, stated for one caller `x` and the other caller `y`: the
cache is well-formed, the lock key is held exactly when a caller is in
the critical section and never by both, the cached data can only be the
fetched value, the fetch happens at most once, and each caller's program
point satisfies `pcOK`. -/
def C4InvAt (now : Nat) (lockVal w : α) (x y : Pc α) (c : MemCache α)
    (cnt : Nat) : Prop :=
  C4WF now lockVal w c ∧
  c.containsKey c4LockKey = (x.inCS || y.inCS) ∧
  ¬(x.inCS = true ∧ y.inCS = true) ∧
  (∀ v, dataAt c = some v → v = w) ∧
  cnt ≤ 1 ∧
  (dataAt c ≠ none → cnt = 1) ∧
  (cnt = 1 → dataAt c = some w ∨ x.isStore = true ∨ y.isStore = true) ∧
  pcOK w cnt (dataAt c) x ∧
  pcOK w cnt (dataAt c) y

/-- The two-caller invariant on a system state. -/
def C4Inv (now : Nat) (lockVal w : α) (s : Sys α) : Prop :=
  C4InvAt now lockVal w s.pcA s.pcB s.cache s.fetchCount

/-! Helper lemmas. -/

theorem handleCBE_cache (opts : EngineOptions) (st : EngineState α) :
    (handleCircuitBreakerError opts st).cache = st.cache := by
  unfold handleCircuitBreakerError
  rcases opts.circuitBreaker with _ | cb
  · rfl
  · dsimp only
    split
    · split <;> rfl
    · rfl

theorem handleCBE_stats (opts : EngineOptions) (st : EngineState α) :
    (handleCircuitBreakerError opts st).stats = st.stats := by
  unfold handleCircuitBreakerError
  rcases opts.circuitBreaker with _ | cb
  · rfl
  · dsimp only
    split
    · split <;> rfl
    · rfl

theorem handleCBE_cbErrors (opts : EngineOptions) (cb : CircuitBreakerConfig)
    (hcb : opts.circuitBreaker = some cb) (he : cb.enabled = true)
    (st : EngineState α) :
    (handleCircuitBreakerError opts st).cbErrors = st.cbErrors + 1 := by
  unfold handleCircuitBreakerError
  rw [hcb]
  dsimp only
  rw [he]
  simp only [if_true]
  split <;> rfl

/-! Claim theorems: read-through scenario, write-through ordering,
backend delete contracts, swallowed backend failures. -/

/-- C1: on an empty cache, `readThrough("k", fetchFn)` with `fetchFn`
returning `{v:1}` and `ttl=60` invokes the fetch once, stores `{v:1}`
under key `"k"` with remaining TTL `60` seconds (hence in `(0,60]`), and
statistics show `misses=1, hits=0`; an immediate second
`readThrough("k", fetchFn2)` returns `{v:1}` without invoking `fetchFn2`,
after which `hits=1`. -/
theorem readThrough_scenario_cold_then_hit :
    let r1 : Except Unit (Option JVal) × Nat × EngineState JVal :=
      readThrough ({} : EngineOptions) 1000 ({} : EngineState JVal) "k"
        (.ok (some (.jobj [("v", .jnum 1)]))) (.jstr "token") (some 60)
    let r2 : Except Unit (Option JVal) × Nat × EngineState JVal :=
      readThrough ({} : EngineOptions) 1000 r1.2.2 "k"
        (.ok (some (.jobj [("v", .jnum 2)]))) (.jstr "token") (some 60)
    r1.1 = .ok (some (.jobj [("v", .jnum 1)])) ∧
    r1.2.1 = 1 ∧
    (MemCache.memGet 1000 r1.2.2.cache "k").1 = some (.jobj [("v", .jnum 1)]) ∧
    MemCache.memTtl 1000 r1.2.2.cache "k" = 60 ∧
    (0 : Int) < MemCache.memTtl 1000 r1.2.2.cache "k" ∧
    MemCache.memTtl 1000 r1.2.2.cache "k" ≤ 60 ∧
    r1.2.2.stats.misses = 1 ∧ r1.2.2.stats.hits = 0 ∧
    r2.1 = .ok (some (.jobj [("v", .jnum 1)])) ∧
    r2.2.1 = 0 ∧ r2.2.2.stats.hits = 1 ∧ r2.2.2.stats.misses = 1 :=
  ⟨rfl, rfl, rfl, rfl, by decide, by decide, rfl, rfl, rfl, rfl, rfl, rfl⟩

/-- C2: when the persist step (`repository.save`) fails, `writeThrough`
propagates the error and performs no cache write — the cache contents and
the write counter are untouched, while the failure is counted and fed to
the circuit breaker; hence a cache entry is written only after the
durable save has succeeded. -/
theorem writeThrough_no_set_on_persist_failure (opts : EngineOptions)
    (now : Nat) (st : EngineState Entity) (ttl : Option Nat) (u : Unit) :
    (writeThrough opts now st (.error u) ttl).1 = .error u ∧
    (writeThrough opts now st (.error u) ttl).2.cache = st.cache ∧
    (writeThrough opts now st (.error u) ttl).2.stats.writes = st.stats.writes ∧
    (writeThrough opts now st (.error u) ttl).2.stats.errors = st.stats.errors + 1 := by
  refine ⟨rfl, ?_, ?_, ?_⟩
  · exact handleCBE_cache opts _
  · show (handleCircuitBreakerError opts _).stats.writes = _
    rw [handleCBE_stats]
  · show (handleCircuitBreakerError opts _).stats.errors = _
    rw [handleCBE_stats]

/-- C8 counterexample: `CacheManagerAdapter.delete` reports `true` even
for a key that never existed, refuting "delete(key) returns true iff the
key existed and was removed" for every backend implementation. -/
theorem adapterDelete_true_for_absent_key :
    (adapterDelete (⟨[]⟩ : CmStore JVal) "missing").1 = true ∧
    cmContains (⟨[]⟩ : CmStore JVal) "missing" = false :=
  ⟨rfl, rfl⟩

/-- C8 (amended): `MemoryCacheProvider.delete` and
`RedisCacheProvider.delete` return true iff the key existed and was
removed, but `CacheManagerAdapter.delete` returns true unconditionally,
even when the key did not exist. -/
theorem delete_backend_contracts :
    (∀ (α : Type) (c : MemCache α) (k : String),
      (MemCache.memDelete c k).1 = true ↔ MemCache.containsKey c k = true) ∧
    (∀ (s : RedisStore) (k : String),
      (redisProviderDelete s k).1 = true ↔ s.entries.any (fun p => p.1 == k) = true) ∧
    (∀ (α : Type) (s : CmStore α) (k : String), (adapterDelete s k).1 = true) := by
  refine ⟨fun α c k => Iff.rfl, fun s k => ?_, fun α s k => rfl⟩
  by_cases h : s.entries.any (fun p => p.1 == k) = true <;>
    simp [redisProviderDelete, redisDel, h]

/-- C9 counterexample: with the breaker enabled, a backend failure inside
`get` is not counted in the statistics error counter (it stays 0, not 1),
and failures inside `delete` and `invalidatePattern` are not fed to the
circuit breaker (its error counter stays 0, not 1). -/
theorem backend_failure_accounting_gaps :
    (engineGet ({ circuitBreaker := some { enabled := true, threshold := 5, resetTimeout := 1000 } } : EngineOptions)
      0 ({} : EngineState JVal) "k" true).2.stats.errors = 0 ∧
    (engineDelete ({ circuitBreaker := some { enabled := true, threshold := 5, resetTimeout := 1000 } } : EngineOptions)
      ({} : EngineState JVal) "k" true).2.cbErrors = 0 ∧
    (engineInvalidatePattern ({ circuitBreaker := some { enabled := true, threshold := 5, resetTimeout := 1000 } } : EngineOptions)
      ({} : EngineState JVal) "p:*" true).2.cbErrors = 0 :=
  ⟨rfl, rfl, rfl⟩

/-- C9 (amended): every backend failure inside `get`, `set`, `delete` and
`invalidatePattern` is swallowed at that boundary — `get` returns null,
`set` is a no-op on the cache, `delete` returns false, and
`invalidatePattern` returns 0, none of them raising. However only `set`
both counts the failure and feeds the breaker: `get` feeds the breaker
without incrementing the error counter, while `delete` and
`invalidatePattern` increment the error counter without feeding the
breaker. -/
theorem backend_failure_swallowed {α : Type} (opts : EngineOptions)
    (now : Nat) (st : EngineState α) (key : String) (v : α)
    (ttl : Option Nat) (pat : String) (hopen : st.cbOpen = false) :
    engineGet opts now st key true = (none, handleCircuitBreakerError opts st) ∧
    (engineGet opts now st key true).2.stats.errors = st.stats.errors ∧
    engineSet opts now st key v ttl true = handleCircuitBreakerError opts
      { st with stats := { st.stats with errors := st.stats.errors + 1 } } ∧
    engineDelete opts st key true =
      (false, { st with stats := { st.stats with errors := st.stats.errors + 1 } }) ∧
    (engineDelete opts st key true).2.cbOpen = st.cbOpen ∧
    (engineDelete opts st key true).2.cbErrors = st.cbErrors ∧
    engineInvalidatePattern opts st pat true =
      (0, { st with stats := { st.stats with errors := st.stats.errors + 1 } }) ∧
    (engineInvalidatePattern opts st pat true).2.cbOpen = st.cbOpen ∧
    (engineInvalidatePattern opts st pat true).2.cbErrors = st.cbErrors := by
  refine ⟨?_, ?_, ?_, rfl, rfl, rfl, rfl, rfl, rfl⟩
  · simp [engineGet, hopen]
  · simp [engineGet, hopen, handleCBE_stats]
  · simp [engineSet, hopen]

/-- C9 amended witness at a concrete failing `get`/`set`/`delete`/
`invalidatePattern` on a fresh closed-breaker state. -/
theorem backend_failure_swallowed_witness :
    engineGet ({} : EngineOptions) 0 ({} : EngineState JVal) "k" true =
      (none, handleCircuitBreakerError {} {}) :=
  (backend_failure_swallowed {} 0 ({} : EngineState JVal) "k" (.jnum 1)
    (some 1) "p:*" rfl).1

theorem cbErrors_iterate {α : Type} (opts : EngineOptions)
    (cb : CircuitBreakerConfig) (hcb : opts.circuitBreaker = some cb)
    (he : cb.enabled = true) :
    ∀ (n : Nat) (st : EngineState α),
      ((handleCircuitBreakerError opts)^[n] st).cbErrors = st.cbErrors + n := by
  intro n
  induction n with
  | zero => intro st; simp
  | succ n ih =>
    intro st
    rw [Function.iterate_succ_apply, ih, handleCBE_cbErrors opts cb hcb he]
    omega

theorem handleCBE_opens {α : Type} (opts : EngineOptions)
    (cb : CircuitBreakerConfig) (hcb : opts.circuitBreaker = some cb)
    (he : cb.enabled = true) (st : EngineState α)
    (h : cb.threshold ≤ st.cbErrors + 1) :
    (handleCircuitBreakerError opts st).cbOpen = true := by
  unfold handleCircuitBreakerError
  rw [hcb]
  dsimp only
  rw [he]
  simp only [if_true]
  rw [if_pos h]

/-- C3: with the breaker enabled at threshold `N ≥ 1`, feeding it `N`
consecutive backend errors from a zero error count opens it; while it is
open, `get` returns null and `set` is a no-op, both leaving the state
untouched and independent of the backend (the `fail` outcome is never
consulted and a present entry is not returned); when `resetTimeout`
elapses, `closeCircuitBreaker` closes the breaker and resets the error
counter, after which `get` consults the backend again and returns its
answer. -/
theorem circuitBreaker_lifecycle {α : Type} (opts : EngineOptions)
    (cb : CircuitBreakerConfig) (N now : Nat)
    (hcb : opts.circuitBreaker = some cb) (he : cb.enabled = true)
    (hth : cb.threshold = N) (h1 : 1 ≤ N) :
    (∀ st : EngineState α, st.cbErrors = 0 →
      ((handleCircuitBreakerError opts)^[N] st).cbOpen = true) ∧
    (∀ (st : EngineState α) (key : String) (fail : Bool),
      st.cbOpen = true → engineGet opts now st key fail = (none, st)) ∧
    (∀ (st : EngineState α) (key : String) (v : α) (ttl : Option Nat)
      (fail : Bool), st.cbOpen = true → engineSet opts now st key v ttl fail = st) ∧
    (∀ st : EngineState α,
      (closeCircuitBreaker st).cbOpen = false ∧
      (closeCircuitBreaker st).cbErrors = 0 ∧
      ∀ key : String, (engineGet opts now (closeCircuitBreaker st) key false).1 =
        (MemCache.memGet now st.cache (getFullKey opts key)).1) := by
  refine ⟨?_, ?_, ?_, ?_⟩
  · intro st h0
    obtain ⟨m, rfl⟩ : ∃ m, N = m + 1 := ⟨N - 1, by omega⟩
    rw [Function.iterate_succ_apply']
    refine handleCBE_opens opts cb hcb he _ ?_
    rw [cbErrors_iterate opts cb hcb he, h0, hth]
    omega
  · intro st key fail h
    simp [engineGet, h]
  · intro st key v ttl fail h
    simp [engineSet, h]
  · intro st
    refine ⟨rfl, rfl, fun key => ?_⟩
    simp [engineGet, closeCircuitBreaker]

/-- C3 witness: threshold 2, two errors open the breaker; an open breaker
ignores a populated backend; after the reset the cached value is
returned. -/
theorem circuitBreaker_lifecycle_witness :
    ((handleCircuitBreakerError
        ({ circuitBreaker := some { enabled := true, threshold := 2, resetTimeout := 7 } } :
          EngineOptions))^[2] ({} : EngineState JVal)).cbOpen = true ∧
    engineGet ({ circuitBreaker := some { enabled := true, threshold := 2, resetTimeout := 7 } } :
        EngineOptions) 0
      ({ cache := MemCache.memSet 0 {} "k" (.jnum 5) none, cbOpen := true } : EngineState JVal)
      "k" false =
      (none, { cache := MemCache.memSet 0 {} "k" (.jnum 5) none, cbOpen := true }) :=
  ⟨(circuitBreaker_lifecycle ({ circuitBreaker := some { enabled := true, threshold := 2, resetTimeout := 7 } })
      { enabled := true, threshold := 2, resetTimeout := 7 } 2 0 rfl rfl rfl (by decide)).1 {} rfl,
   (circuitBreaker_lifecycle ({ circuitBreaker := some { enabled := true, threshold := 2, resetTimeout := 7 } })
      { enabled := true, threshold := 2, resetTimeout := 7 } 2 0 rfl rfl rfl (by decide)).2.1
     _ "k" false rfl⟩

/-- C6 counterexample: the custom-key branch joins the declared key-field
values with `:` (via `buildKey`), not `_` as claimed, and it fires as
soon as one declared key-field is defined, not only when all are present:
an entity with declared fields `k1,k2` and values `a,b` keys to
`User:custom:a:b` (not `User:custom:a_b`), and one with only `k1`
defined still keys to `User:custom:a`. -/
theorem forEntity_custom_branch_counterexample :
    CacheKeyGenerator.forEntity
      ⟨"User", none, ["k1", "k2"], [("k1", .jstr "a"), ("k2", .jstr "b")]⟩ none =
      .ok "User:custom:a:b" ∧
    "User:custom:a:b" ≠ "User:custom:a_b" ∧
    CacheKeyGenerator.forEntity
      ⟨"User", none, ["k1", "k2"], [("k1", .jstr "a")]⟩ none =
      .ok "User:custom:a" :=
  ⟨rfl, by decide, rfl⟩

/-- C6 (amended): `forEntity` uses, in priority order: (a) the declared
key-fields when at least one carries a defined value, producing
`prefix:custom:<v1>:<v2>...` over the defined values (colon-separated);
(b) a truthy `id` field, producing `prefix:id:<id>` (in particular
`forEntity` of a `User` with `id` 123 yields `"User:id:123"`); (c) the
composite-key heuristic over known two-field patterns, producing
`prefix:composite:<v1>_<v2>`; and fails with a key-generation error if
none apply. -/
theorem forEntity_priority (e : Entity) :
    let pref := match e.meta with
      | some m => match m.pref with
        | some p => if p = "" then e.ctorName else p
        | none => e.ctorName
      | none => e.ctorName
    let kvals := (e.cacheKeys.map e.getField).filter (fun v => !v.isUndefined)
    (kvals ≠ [] →
      CacheKeyGenerator.forEntity e none =
        .ok (CacheKeyGenerator.buildKey (.jstr pref :: .jstr "custom" :: kvals))) ∧
    (kvals = [] → (e.getField "id").truthy = true →
      CacheKeyGenerator.forEntity e none =
        .ok (CacheKeyGenerator.buildKey [.jstr pref, .jstr "id", e.getField "id"])) ∧
    (kvals = [] → (e.getField "id").truthy = false →
      ∀ ck, CacheKeyGenerator.extractCompositeKey e = some ck →
      CacheKeyGenerator.forEntity e none =
        .ok (CacheKeyGenerator.buildKey [.jstr pref, .jstr "composite", .jstr ck])) ∧
    (kvals = [] → (e.getField "id").truthy = false →
      CacheKeyGenerator.extractCompositeKey e = none →
      CacheKeyGenerator.forEntity e none =
        .error ("Cannot generate cache key for entity " ++ e.ctorName ++
          ": no primary key found")) := by
  intro pref kvals
  have hlen : kvals ≠ [] → 0 < e.cacheKeys.length ∧ 0 < kvals.length := by
    intro h
    have h2 : 0 < kvals.length := List.length_pos.mpr h
    refine ⟨?_, h2⟩
    by_contra hl
    have : e.cacheKeys = [] := by
      cases hk : e.cacheKeys with
      | nil => rfl
      | cons a l => rw [hk] at hl; simp at hl
    have : kvals = [] := by
      show (e.cacheKeys.map e.getField).filter (fun v => !v.isUndefined) = []
      rw [this]; rfl
    exact h this
  refine ⟨?_, ?_, ?_, ?_⟩
  · intro h
    unfold CacheKeyGenerator.forEntity
    rw [if_pos (hlen h)]
    rfl
  · intro h hid
    have hcond : ¬(0 < e.cacheKeys.length ∧ 0 < kvals.length) := by
      intro ⟨_, h2⟩
      rw [h] at h2
      simp at h2
    unfold CacheKeyGenerator.forEntity
    rw [if_neg hcond, if_pos hid]
  · intro h hid ck hck
    have hcond : ¬(0 < e.cacheKeys.length ∧ 0 < kvals.length) := by
      intro ⟨_, h2⟩
      rw [h] at h2
      simp at h2
    unfold CacheKeyGenerator.forEntity
    rw [if_neg hcond, if_neg (by rw [hid]; exact Bool.false_ne_true), hck]
  · intro h hid hck
    have hcond : ¬(0 < e.cacheKeys.length ∧ 0 < kvals.length) := by
      intro ⟨_, h2⟩
      rw [h] at h2
      simp at h2
    unfold CacheKeyGenerator.forEntity
    rw [if_neg hcond, if_neg (by rw [hid]; exact Bool.false_ne_true), hck]

/-- C6 amended witness: the `id` branch at `{constructor:{name:'User'},
id:123}` yields `User:id:123`, with every hypothesis discharged at the
concrete entity. -/
theorem forEntity_priority_witness :
    CacheKeyGenerator.forEntity ⟨"User", none, [], [("id", .jnum 123)]⟩ none =
      .ok "User:id:123" :=
  ((forEntity_priority ⟨"User", none, [], [("id", .jnum 123)]⟩).2.1 rfl rfl).trans rfl

/-- C7: with stale-while-revalidate and keyPrefix `"p"`, `set("k",old,60)`
shadow-writes the stale copy under `stale:p:k` (TTL `60+300`), but a
lock-contended `readThrough("k",…)` looks the stale copy up under
`p:stale:k` (the engine prefix is applied after the `stale:` marker), so
the previously set value is never served: the call falls through to the
fetch callback and returns `fresh` while `old` still sits in the stale
shadow. With no keyPrefix the same scenario serves `old` without any
fetch, which is the claimed (and intended) behavior. -/
theorem staleRead_misses_shadow_under_keyPrefix :
    let opts : EngineOptions :=
      { keyPref := some "p", staleWhileRevalidate := true, stampedeProtection := true }
    let st1 := engineSet opts 0 ({} : EngineState JVal) "k" (.jstr "old") (some 60) false
    let stL : EngineState JVal :=
      { st1 with cache := MemCache.memSet 61000 st1.cache "lock:fetch:k" (.jstr "L") (some 30) }
    let r := readThrough opts 61000 stL "k" (.ok (some (.jstr "fresh"))) (.jstr "L2") (some 60)
    (MemCache.memGet 61000 st1.cache ("stale:" ++ getFullKey opts "k")).1 = some (.jstr "old") ∧
    MemCache.memTtl 0 st1.cache ("stale:" ++ getFullKey opts "k") = 360 ∧
    getFullKey opts ("stale:" ++ "k") ≠ "stale:" ++ getFullKey opts "k" ∧
    r.1 = .ok (some (.jstr "fresh")) ∧
    r.2.1 = 1 ∧
    (MemCache.memGet 61000 r.2.2.cache ("stale:" ++ getFullKey opts "k")).1 = some (.jstr "old") ∧
    (let opts2 : EngineOptions := { staleWhileRevalidate := true, stampedeProtection := true }
     let st2 := engineSet opts2 0 ({} : EngineState JVal) "k" (.jstr "old") (some 60) false
     let stL2 : EngineState JVal :=
       { st2 with cache := MemCache.memSet 61000 st2.cache "lock:fetch:k" (.jstr "L") (some 30) }
     let r2 := readThrough opts2 61000 stL2 "k" (.ok (some (.jstr "fresh"))) (.jstr "L2") (some 60)
     r2.1 = .ok (some (.jstr "old")) ∧ r2.2.1 = 0) :=
  ⟨rfl, rfl, by decide, rfl, rfl, rfl, rfl, rfl⟩

/-- C10: falsy values are indistinguishable from misses on the read path:
when the cached value under a key is falsy (`0`, `false`, `""` or
`null`), `readThrough` counts a miss and invokes the fetch callback, and
when the fetch callback returns a falsy value it is handed to the caller
but never stored — the cache and the write counter are unchanged. -/
theorem readThrough_falsy_is_miss {α : Type} [JsTruthy α]
    (opts : EngineOptions) (now : Nat) (st : EngineState α) (key : String)
    (v w : α) (lockVal : α) (ttl : Option Nat)
    (hsp : opts.stampedeProtection = false)
    (hcb : st.cbOpen = false)
    (hv : JsTruthy.truthy v = false)
    (hc : MemCache.memGet now st.cache (getFullKey opts key) = (some v, st.cache))
    (hw : JsTruthy.truthy w = false) :
    (readThrough opts now st key (.ok (some w)) lockVal ttl).1 = .ok (some w) ∧
    (readThrough opts now st key (.ok (some w)) lockVal ttl).2.1 = 1 ∧
    (readThrough opts now st key (.ok (some w)) lockVal ttl).2.2.stats.misses =
      st.stats.misses + 1 ∧
    (readThrough opts now st key (.ok (some w)) lockVal ttl).2.2.stats.hits =
      st.stats.hits ∧
    (readThrough opts now st key (.ok (some w)) lockVal ttl).2.2.cache = st.cache ∧
    (readThrough opts now st key (.ok (some w)) lockVal ttl).2.2.stats.writes =
      st.stats.writes := by
  obtain ⟨cache, stats, lts, wts, cbo, cbe⟩ := st
  dsimp only at hcb hc ⊢
  subst hcb
  have hget : engineGet opts now ⟨cache, stats, lts, wts, false, cbe⟩ key false =
      (some v, ⟨cache, stats, lts, wts, false, cbe⟩) := by
    simp [engineGet, hc]
  refine ⟨?_, ?_, ?_, ?_, ?_, ?_⟩ <;>
    simp [readThrough, hget, optTruthy, hv, hsp, hw, recordLoadTime]

/-- C10 witness: a cached `0` under `"k"` is treated as a miss and a
fetched `0` is returned but not stored. -/
theorem readThrough_falsy_is_miss_witness :
    (readThrough ({} : EngineOptions) 5
        ({ cache := MemCache.memSet 5 {} "k" (.jnum 0) none } : EngineState JVal) "k"
        (.ok (some (.jnum 0))) (.jstr "L") (some 60)).1 = .ok (some (.jnum 0)) :=
  (readThrough_falsy_is_miss {} 5
    ({ cache := MemCache.memSet 5 {} "k" (.jnum 0) none } : EngineState JVal) "k"
    (.jnum 0) (.jnum 0) (.jstr "L") (some 60) rfl rfl rfl rfl rfl).1

/-! Canonicalization lemmas for the order-independence claim. -/

theorem sortObjectKVs_eq_map (kvs : List (String × JVal)) :
    CacheKeyGenerator.sortObjectKVs kvs =
      kvs.map (fun kv => (kv.1, CacheKeyGenerator.sortObject kv.2)) := by
  induction kvs with
  | nil => rfl
  | cons kv t ih =>
    obtain ⟨k, v⟩ := kv
    simp [CacheKeyGenerator.sortObjectKVs, ih]

theorem keys_sortObjectKVs (kvs : List (String × JVal)) :
    (CacheKeyGenerator.sortObjectKVs kvs).map Prod.fst = kvs.map Prod.fst := by
  rw [sortObjectKVs_eq_map]
  simp

theorem nodupKeysB_iff (ks : List String) : nodupKeysB ks = true ↔ ks.Nodup := by
  induction ks with
  | nil => simp [nodupKeysB]
  | cons k t ih => simp [nodupKeysB, ih, List.nodup_cons]

theorem all_eq_of_perm {β : Type} (p : β → Bool) {l₁ l₂ : List β}
    (h : l₁.Perm l₂) : l₁.all p = l₂.all p := by
  rcases hb : l₂.all p with _ | _
  · rcases hc : l₁.all p with _ | _
    · rfl
    · rw [List.all_eq_true] at hc
      rw [Bool.eq_false_iff, ne_eq, List.all_eq_true] at hb
      exact absurd (fun x hx => hc x (h.mem_iff.mpr hx)) hb
  · rw [List.all_eq_true] at hb ⊢
    exact fun x hx => hb x (h.mem_iff.mp hx)

theorem wfKVsB_eq_all (kvs : List (String × JVal)) :
    wfKVsB kvs = kvs.all (fun kv => kv.2.wfB) := by
  induction kvs with
  | nil => rfl
  | cons kv t ih =>
    obtain ⟨k, v⟩ := kv
    simp [wfKVsB, ih]

theorem wfListB_eq_all (xs : List JVal) :
    wfListB xs = xs.all JVal.wfB := by
  induction xs with
  | nil => rfl
  | cons x t ih => simp [wfListB, ih]

theorem sorted_keyLt_of_sorted_keyLe (l : List (String × JVal))
    (hs : List.Sorted CacheKeyGenerator.keyLe l) (hn : (l.map Prod.fst).Nodup) :
    List.Sorted keyLt l := by
  have hne : l.Pairwise (fun a b => a.1 ≠ b.1) := List.pairwise_map.mp hn
  exact (hs.and hne).imp (fun h => lt_of_le_of_ne h.1 h.2)

theorem insertionSort_keyLe_eq {l₁ l₂ : List (String × JVal)}
    (hp : l₁.Perm l₂) (hnd : (l₁.map Prod.fst).Nodup) :
    List.insertionSort CacheKeyGenerator.keyLe l₁ =
      List.insertionSort CacheKeyGenerator.keyLe l₂ := by
  have p₁ := List.perm_insertionSort CacheKeyGenerator.keyLe l₁
  have p₂ := List.perm_insertionSort CacheKeyGenerator.keyLe l₂
  have hp' : (List.insertionSort CacheKeyGenerator.keyLe l₁).Perm
      (List.insertionSort CacheKeyGenerator.keyLe l₂) :=
    p₁.trans (hp.trans p₂.symm)
  have hnd₁ : ((List.insertionSort CacheKeyGenerator.keyLe l₁).map Prod.fst).Nodup :=
    ((p₁.map Prod.fst).nodup_iff).mpr hnd
  have hnd₂ : ((List.insertionSort CacheKeyGenerator.keyLe l₂).map Prod.fst).Nodup :=
    ((hp'.map Prod.fst).nodup_iff).mp hnd₁
  exact List.eq_of_perm_of_sorted hp'
    (sorted_keyLt_of_sorted_keyLe _ (List.sorted_insertionSort _ l₁) hnd₁)
    (sorted_keyLt_of_sorted_keyLe _ (List.sorted_insertionSort _ l₂) hnd₂)

theorem sortObjectList_congr (ys : List JVal)
    (helem : ∀ y ∈ ys, ∀ x, JPerm x y → x.wfB = true → y.wfB = true →
      CacheKeyGenerator.sortObject x = CacheKeyGenerator.sortObject y) :
    ∀ xs, JPermList xs ys → wfListB xs = true → wfListB ys = true →
    CacheKeyGenerator.sortObjectList xs = CacheKeyGenerator.sortObjectList ys := by
  induction ys with
  | nil =>
    intro xs h _ _
    cases xs with
    | nil => rfl
    | cons x t => simp [JPermList] at h
  | cons y ys ih =>
    intro xs h wxs wys
    cases xs with
    | nil => simp [JPermList] at h
    | cons x t =>
      have h' : JPerm x y ∧ JPermList t ys := by simpa [JPermList] using h
      have wx : x.wfB = true ∧ wfListB t = true := by
        simpa [wfListB, Bool.and_eq_true] using wxs
      have wy : y.wfB = true ∧ wfListB ys = true := by
        simpa [wfListB, Bool.and_eq_true] using wys
      show CacheKeyGenerator.sortObject x :: CacheKeyGenerator.sortObjectList t = _
      rw [helem y (List.mem_cons_self y ys) x h'.1 wx.1 wy.1,
        ih (fun y' hy' => helem y' (List.mem_cons_of_mem _ hy')) t h'.2 wx.2 wy.2]
      rfl

theorem sortObjectKVs_congr (kvs : List (String × JVal))
    (helem : ∀ kv ∈ kvs, ∀ v, JPerm v kv.2 → v.wfB = true → kv.2.wfB = true →
      CacheKeyGenerator.sortObject v = CacheKeyGenerator.sortObject kv.2) :
    ∀ l, JPermKVs l kvs → wfKVsB l = true → wfKVsB kvs = true →
    CacheKeyGenerator.sortObjectKVs l = CacheKeyGenerator.sortObjectKVs kvs := by
  induction kvs with
  | nil =>
    intro l h _ _
    cases l with
    | nil => rfl
    | cons kv t =>
      obtain ⟨k, v⟩ := kv
      simp [JPermKVs] at h
  | cons kv2 kvs ih =>
    obtain ⟨k2, v2⟩ := kv2
    intro l h wl wkvs
    cases l with
    | nil => simp [JPermKVs] at h
    | cons kv1 t =>
      obtain ⟨k1, v1⟩ := kv1
      have h' : k1 = k2 ∧ JPerm v1 v2 ∧ JPermKVs t kvs := by
        simpa [JPermKVs] using h
      have w1 : v1.wfB = true ∧ wfKVsB t = true := by
        simpa [wfKVsB, Bool.and_eq_true] using wl
      have w2 : v2.wfB = true ∧ wfKVsB kvs = true := by
        simpa [wfKVsB, Bool.and_eq_true] using wkvs
      show (k1, CacheKeyGenerator.sortObject v1) :: CacheKeyGenerator.sortObjectKVs t = _
      rw [h'.1,
        helem (k2, v2) (List.mem_cons_self _ _) v1 h'.2.1 w1.1 w2.1,
        ih (fun kv' hkv' => helem kv' (List.mem_cons_of_mem _ hkv')) t h'.2.2 w1.2 w2.2]
      rfl

theorem sizeOf_snd_lt_of_mem {kv : String × JVal} {kvs : List (String × JVal)}
    (h : kv ∈ kvs) : sizeOf kv.2 < sizeOf kvs := by
  obtain ⟨k, v⟩ := kv
  have h2 := List.sizeOf_lt_of_mem h
  simp at h2 ⊢
  omega

theorem jperm_sortObject :
    ∀ (b a : JVal), JPerm a b → a.wfB = true → b.wfB = true →
      CacheKeyGenerator.sortObject a = CacheKeyGenerator.sortObject b := by
  have key : ∀ (n : Nat) (b : JVal), sizeOf b ≤ n → ∀ (a : JVal),
      JPerm a b → a.wfB = true → b.wfB = true →
      CacheKeyGenerator.sortObject a = CacheKeyGenerator.sortObject b := by
    intro n
    induction n using Nat.strong_induction_on with
    | _ n ih =>
      intro b hb a h wa wb
      cases b with
      | undefined =>
        cases a <;> simp [JPerm] at h
        rfl
      | jnull =>
        cases a <;> simp [JPerm] at h
        rfl
      | jbool bv =>
        cases a <;> simp [JPerm] at h
        subst h; rfl
      | jnum nv =>
        cases a <;> simp [JPerm] at h
        subst h; rfl
      | jstr sv =>
        cases a <;> simp [JPerm] at h
        subst h; rfl
      | jarr ys =>
        cases a with
        | jarr xs =>
          have h' : JPermList xs ys := by simpa [JPerm] using h
          have wxs : wfListB xs = true := by simpa [JVal.wfB] using wa
          have wys : wfListB ys = true := by simpa [JVal.wfB] using wb
          have helem : ∀ y ∈ ys, ∀ x, JPerm x y → x.wfB = true → y.wfB = true →
              CacheKeyGenerator.sortObject x = CacheKeyGenerator.sortObject y := by
            intro y hy x hx wx wy
            have hsz : sizeOf y < n := by
              have h1 := List.sizeOf_lt_of_mem hy
              have h2 : sizeOf (JVal.jarr ys) = 1 + sizeOf ys := by simp
              omega
            exact ih (sizeOf y) hsz y le_rfl x hx wx wy
          show JVal.jarr (CacheKeyGenerator.sortObjectList xs) = _
          rw [sortObjectList_congr ys helem xs h' wxs wys]
          rfl
        | undefined => simp [JPerm] at h
        | jnull => simp [JPerm] at h
        | jbool b => simp [JPerm] at h
        | jnum n => simp [JPerm] at h
        | jstr s => simp [JPerm] at h
        | jobj kvs => simp [JPerm] at h
      | jobj kvs₂ =>
        cases a with
        | jobj kvs₁ =>
          obtain ⟨l, hl, hrel⟩ : ∃ l, l.Perm kvs₁ ∧ JPermKVs l kvs₂ := by
            simpa [JPerm] using h
          have wa' : nodupKeysB (kvs₁.map Prod.fst) = true ∧ wfKVsB kvs₁ = true := by
            simpa [JVal.wfB, Bool.and_eq_true] using wa
          have wb' : nodupKeysB (kvs₂.map Prod.fst) = true ∧ wfKVsB kvs₂ = true := by
            simpa [JVal.wfB, Bool.and_eq_true] using wb
          have wl : wfKVsB l = true := by
            rw [wfKVsB_eq_all] at wa' ⊢
            rw [all_eq_of_perm _ hl]
            exact wa'.2
          have helem : ∀ kv ∈ kvs₂, ∀ v, JPerm v kv.2 → v.wfB = true →
              kv.2.wfB = true →
              CacheKeyGenerator.sortObject v = CacheKeyGenerator.sortObject kv.2 := by
            intro kv hkv v hv wv wkv
            have hsz : sizeOf kv.2 < n := by
              have h1 := sizeOf_snd_lt_of_mem hkv
              have h2 : sizeOf (JVal.jobj kvs₂) = 1 + sizeOf kvs₂ := by simp
              omega
            exact ih (sizeOf kv.2) hsz kv.2 le_rfl v hv wv wkv
          have hcanon : CacheKeyGenerator.sortObjectKVs l =
              CacheKeyGenerator.sortObjectKVs kvs₂ :=
            sortObjectKVs_congr kvs₂ helem l hrel wl wb'.2
          have hperm : (CacheKeyGenerator.sortObjectKVs kvs₁).Perm
              (CacheKeyGenerator.sortObjectKVs kvs₂) := by
            rw [← hcanon, sortObjectKVs_eq_map, sortObjectKVs_eq_map]
            exact (hl.map _).symm
          have hnd : ((CacheKeyGenerator.sortObjectKVs kvs₁).map Prod.fst).Nodup := by
            rw [keys_sortObjectKVs]
            exact (nodupKeysB_iff _).mp wa'.1
          show JVal.jobj (List.insertionSort CacheKeyGenerator.keyLe
            (CacheKeyGenerator.sortObjectKVs kvs₁)) = _
          rw [insertionSort_keyLe_eq hperm hnd]
          rfl
        | undefined => simp [JPerm] at h
        | jnull => simp [JPerm] at h
        | jbool b => simp [JPerm] at h
        | jnum n => simp [JPerm] at h
        | jstr s => simp [JPerm] at h
        | jarr xs => simp [JPerm] at h
  intro b a h wa wb
  exact key (sizeOf b) b le_rfl a h wa wb

theorem jperm_truthy (a b : JVal) (h : JPerm a b) : a.truthy = b.truthy := by
  cases a <;> cases b <;> simp [JPerm] at h <;> try rfl
  all_goals (subst h; rfl)

/-- C5: for every entity name `T` and every pair of option objects that
are recursive key-wise permutations of each other (with the
duplicate-free keys every real JavaScript object has),
`forCount(T, o1) = forCount(T, o2)`: object keys are sorted recursively
before hashing (`sortObject`; arrays keep their order), the
serialization is hashed with SHA-256 (`hashObject`), and the key's hash
segment is the digest's first 16 hex characters. -/
theorem forCount_order_independence (T : String) (o1 o2 : JVal)
    (h : JPerm o1 o2) (w1 : o1.wfB = true) (w2 : o2.wfB = true) :
    CacheKeyGenerator.forCount T o1 = CacheKeyGenerator.forCount T o2 := by
  unfold CacheKeyGenerator.forCount CacheKeyGenerator.hashObject
  rw [jperm_sortObject o2 o1 h w1 w2, jperm_truthy o1 o2 h]

/-- C5 witness: `forCount(T, {b:1,a:2}) = forCount(T, {a:2,b:1})`, with
the permutation and well-formedness hypotheses discharged concretely. -/
theorem forCount_order_independence_witness :
    CacheKeyGenerator.forCount "User" (.jobj [("b", .jnum 1), ("a", .jnum 2)]) =
      CacheKeyGenerator.forCount "User" (.jobj [("a", .jnum 2), ("b", .jnum 1)]) :=
  forCount_order_independence "User"
    (.jobj [("b", .jnum 1), ("a", .jnum 2)])
    (.jobj [("a", .jnum 2), ("b", .jnum 1)])
    ⟨[("a", JVal.jnum 2), ("b", JVal.jnum 1)],
     List.Perm.swap ("b", JVal.jnum 1) ("a", JVal.jnum 2) [],
     by simp [JPermKVs, JPerm]⟩
    rfl rfl
theorem find?_map_of_pred_comm {β : Type} (f : β → β) (p : β → Bool)
    (hf : ∀ q, p (f q) = p q) :
    ∀ l : List β, (l.map f).find? p = (l.find? p).map f := by
  intro l
  induction l with
  | nil => rfl
  | cons q t ih =>
    by_cases hq : p q = true
    · simp [List.find?_cons, hf, hq]
    · have hq' : p q = false := by rw [Bool.eq_false_iff]; exact hq
      simp [List.find?_cons, hf, hq', ih]

theorem lookup_mapSet (l : List (String × MemEntry α)) (k k' : String)
    (e : MemEntry α) :
    (MemCache.mapSet ⟨l⟩ k e).lookup k' =
      if k' = k then some e else MemCache.lookup ⟨l⟩ k' := by
  unfold MemCache.mapSet MemCache.lookup
  dsimp only
  by_cases hc : l.any (fun p => p.1 == k) = true
  · rw [if_pos hc]
    have hcomm : ∀ q : String × MemEntry α,
        (fun p => p.1 == k') ((fun p => if p.1 == k then (k, e) else p) q) =
          (fun p => p.1 == k') q := by
      intro q
      dsimp only
      by_cases hq : (q.1 == k) = true
      · rw [if_pos hq, ← eq_of_beq hq]
      · rw [if_neg hq]
    rw [find?_map_of_pred_comm _ _ hcomm l]
    rcases hf : l.find? (fun p => p.1 == k') with _ | q
    · rw [hf]
      simp only [Option.map_none']
      by_cases h : k' = k
      · exfalso
        subst h
        rw [List.find?_eq_none] at hf
        rw [List.any_eq_true] at hc
        obtain ⟨p, hp, hpk⟩ := hc
        exact hf p hp hpk
      · rw [if_neg h]
    · have hq := List.find?_some hf
      rw [hf]
      simp only [Option.map_some']
      by_cases h : k' = k
      · subst h
        rw [if_pos rfl]
        simp [show (q.1 == k') = true from hq]
      · rw [if_neg h]
        have hqk : (q.1 == k) = false := by
          rw [Bool.eq_false_iff]
          intro hk
          exact h ((eq_of_beq (show (q.1 == k') = true from hq)).symm.trans (eq_of_beq hk))
        simp [hqk]
  · rw [if_neg hc]
    rw [List.find?_append]
    rcases hf : l.find? (fun p => p.1 == k') with _ | q
    · rw [hf]
      simp only [Option.none_or]
      by_cases h : k' = k
      · subst h
        simp [List.find?_cons]
      · have hkk : (k == k') = false := by
          rw [Bool.eq_false_iff]
          intro hk
          exact h (eq_of_beq hk).symm
        simp [List.find?_cons, hkk, h]
    · have hq := List.find?_some hf
      rw [hf]
      by_cases h : k' = k
      · exfalso
        have hmem : q ∈ l := List.mem_of_find?_eq_some hf
        refine absurd (List.any_eq_true.mpr ⟨q, hmem, ?_⟩) hc
        rw [← h]
        exact hq
      · rw [if_neg h]
        rfl
theorem lookup_mapDelete (l : List (String × MemEntry α)) (k k' : String) :
    ((MemCache.mapDelete ⟨l⟩ k).2).lookup k' =
      if k' = k then none else MemCache.lookup ⟨l⟩ k' := by
  unfold MemCache.mapDelete MemCache.lookup
  dsimp only
  induction l with
  | nil => by_cases h : k' = k <;> simp [h]
  | cons p t ih =>
    by_cases hpk : (p.1 == k) = true
    · simp only [List.filter_cons, hpk, Bool.not_true, if_neg (by simp : ¬(false = true))]
      by_cases h : k' = k
      · rw [if_pos h]
        rw [if_pos h] at ih
        exact ih
      · rw [if_neg h]
        rw [if_neg h] at ih
        have hpk' : (p.1 == k') = false := by
          rw [Bool.eq_false_iff]
          intro hk
          exact h ((eq_of_beq hk).symm.trans (eq_of_beq hpk))
        rw [List.find?_cons, hpk']
        exact ih
    · have hpf : (p.1 == k) = false := by rw [Bool.eq_false_iff]; exact hpk
      by_cases hpk' : (p.1 == k') = true
      · have h : ¬k' = k := by
          intro hh
          rw [hh] at hpk'
          exact hpk hpk'
        simp [List.filter_cons, hpf, List.find?_cons, hpk', h]
      · have hpf' : (p.1 == k') = false := by rw [Bool.eq_false_iff]; exact hpk'
        by_cases h : k' = k
        · rw [if_pos h] at ih
          simp [List.filter_cons, hpf, List.find?_cons, hpf', h, ih]
        · rw [if_neg h] at ih
          have hfun : (fun a : String × MemEntry α => !decide (a.1 = k) && decide (a.1 = k')) =
              (fun p : String × MemEntry α => p.1 == k') := by
            funext a
            by_cases ha : a.1 = k'
            · simp [ha, h]
            · simp [ha]
          simp [List.filter_cons, hpf, List.find?_cons, hpf', h, ih, hfun]

theorem containsKey_eq_isSome (c : MemCache α) (k : String) :
    c.containsKey k = (c.lookup k).isSome := by
  rw [Bool.eq_iff_iff]
  unfold MemCache.containsKey MemCache.lookup
  rw [List.any_eq_true]
  rw [Option.isSome_map']
  rw [List.find?_isSome]
theorem C4WF_mapSet {α : Type} {now : Nat} {lv w : α} {c : MemCache α}
    (h : C4WF now lv w c) (k : String) (e : MemEntry α)
    (hke : (k = c4LockKey ∧ e = ⟨lv, some (now + 30000)⟩) ∨
           (k = c4Key ∧ e = ⟨w, some (now + 3600000)⟩)) :
    C4WF now lv w (c.mapSet k e) := by
  obtain ⟨hnd, hmem⟩ := h
  unfold MemCache.mapSet
  by_cases hc : c.entries.any (fun p => p.1 == k) = true
  · rw [if_pos hc]
    have hkeys : (c.entries.map (fun p => if p.1 == k then (k, e) else p)).map Prod.fst =
        c.entries.map Prod.fst := by
      rw [List.map_map]
      apply List.map_congr_left
      intro q _
      dsimp only [Function.comp]
      by_cases hq : (q.1 == k) = true
      · rw [if_pos hq]
        exact (eq_of_beq hq).symm
      · rw [if_neg hq]
    refine ⟨by rw [hkeys]; exact hnd, ?_⟩
    intro p hp
    rw [List.mem_map] at hp
    obtain ⟨q, hq, rfl⟩ := hp
    by_cases hqk : (q.1 == k) = true
    · rw [if_pos hqk]
      rcases hke with ⟨hk, he⟩ | ⟨hk, he⟩
      · exact Or.inl ⟨hk, by rw [he]⟩
      · exact Or.inr ⟨hk, by rw [he]⟩
    · rw [if_neg hqk]
      exact hmem q hq
  · rw [if_neg hc]
    constructor
    · rw [List.map_append]
      rw [List.nodup_append]
      refine ⟨hnd, List.nodup_singleton k, ?_⟩
      intro a ha hb
      simp only [List.map_cons, List.map_nil, List.mem_singleton] at hb
      subst hb
      rw [List.mem_map] at ha
      obtain ⟨q, hq, rfl⟩ := ha
      rw [List.any_eq_true] at hc
      exact hc ⟨q, hq, beq_iff_eq.mpr rfl⟩
    · intro p hp
      rw [List.mem_append] at hp
      rcases hp with hp | hp
      · exact hmem p hp
      · rw [List.mem_singleton] at hp
        subst hp
        rcases hke with ⟨hk, he⟩ | ⟨hk, he⟩
        · exact Or.inl ⟨hk, by rw [he]⟩
        · exact Or.inr ⟨hk, by rw [he]⟩

theorem C4WF_mapDelete {α : Type} {now : Nat} {lv w : α} {c : MemCache α}
    (h : C4WF now lv w c) (k : String) :
    C4WF now lv w (c.mapDelete k).2 := by
  obtain ⟨hnd, hmem⟩ := h
  unfold MemCache.mapDelete
  refine ⟨?_, ?_⟩
  · exact List.Nodup.sublist ((List.filter_sublist _).map Prod.fst) hnd
  · intro p hp
    exact hmem p (List.mem_of_mem_filter hp)

theorem expiredAt_false_of_WF {α : Type} {now : Nat} {lv w : α}
    {c : MemCache α} (h : C4WF now lv w c) {p : String × MemEntry α}
    (hp : p ∈ c.entries) : MemCache.expiredAt now p.2 = false := by
  rcases h.2 p hp with ⟨_, he⟩ | ⟨_, he⟩ <;>
    (rw [he]; simp [MemCache.expiredAt])

theorem memGet_of_WF {α : Type} {now : Nat} {lv w : α} {c : MemCache α}
    (h : C4WF now lv w c) (k : String) :
    MemCache.memGet now c k = ((c.lookup k).map (fun e => e.value), c) := by
  unfold MemCache.memGet
  rcases hl : c.lookup k with _ | e
  · rfl
  · have : ∃ p, c.entries.find? (fun p => p.1 == k) = some p ∧ p.2 = e := by
      unfold MemCache.lookup at hl
      rcases hf : c.entries.find? (fun p => p.1 == k) with _ | p
      · rw [hf] at hl; simp at hl
      · rw [hf] at hl
        simp at hl
        exact ⟨p, hf, hl⟩
    obtain ⟨p, hf, rfl⟩ := this
    have hmem : p ∈ c.entries := List.mem_of_find?_eq_some hf
    simp [expiredAt_false_of_WF h hmem]

theorem memExists_of_WF {α : Type} {now : Nat} {lv w : α} {c : MemCache α}
    (h : C4WF now lv w c) (k : String) :
    MemCache.memExists now c k = ((c.lookup k).isSome, c) := by
  unfold MemCache.memExists
  rcases hl : c.lookup k with _ | e
  · rfl
  · have : ∃ p, c.entries.find? (fun p => p.1 == k) = some p ∧ p.2 = e := by
      unfold MemCache.lookup at hl
      rcases hf : c.entries.find? (fun p => p.1 == k) with _ | p
      · rw [hf] at hl; simp at hl
      · rw [hf] at hl
        simp at hl
        exact ⟨p, hf, hl⟩
    obtain ⟨p, hf, rfl⟩ := this
    have hmem : p ∈ c.entries := List.mem_of_find?_eq_some hf
    simp [expiredAt_false_of_WF h hmem]
theorem c4Key_ne_lockKey : c4Key ≠ c4LockKey := by decide

theorem containsKey_mapSet (c : MemCache α) (k k' : String) (e : MemEntry α) :
    (c.mapSet k e).containsKey k' = if k' = k then true else c.containsKey k' := by
  obtain ⟨l⟩ := c
  rw [containsKey_eq_isSome, lookup_mapSet]
  by_cases h : k' = k <;> simp [h, containsKey_eq_isSome]

theorem containsKey_mapDelete (c : MemCache α) (k k' : String) :
    ((c.mapDelete k).2).containsKey k' = if k' = k then false else c.containsKey k' := by
  obtain ⟨l⟩ := c
  rw [containsKey_eq_isSome, lookup_mapDelete]
  by_cases h : k' = k <;> simp [h, containsKey_eq_isSome]

theorem dataAt_mapSet (c : MemCache α) (k : String) (e : MemEntry α) :
    dataAt (c.mapSet k e) = if c4Key = k then some e.value else dataAt c := by
  obtain ⟨l⟩ := c
  unfold dataAt
  rw [lookup_mapSet]
  by_cases h : c4Key = k <;> simp [h]

theorem dataAt_mapDelete (c : MemCache α) (k : String) :
    dataAt ((c.mapDelete k).2) = if c4Key = k then none else dataAt c := by
  obtain ⟨l⟩ := c
  unfold dataAt
  rw [lookup_mapDelete]
  by_cases h : c4Key = k <;> simp [h]

theorem memSet_lockEntry {α : Type} (now : Nat) (c : MemCache α) (k : String) (v : α) :
    MemCache.memSet now c k v (some 30) = c.mapSet k ⟨v, some (now + 30000)⟩ := by
  simp [MemCache.memSet]

theorem memSet_dataEntry {α : Type} (now : Nat) (c : MemCache α) (k : String) (v : α) :
    MemCache.memSet now c k v (some 3600) = c.mapSet k ⟨v, some (now + 3600000)⟩ := by
  simp [MemCache.memSet]

theorem isStore_inCS (p : Pc α) (h : p.isStore = true) : p.inCS = true := by
  cases p <;> simp [Pc.isStore, Pc.inCS] at h ⊢

theorem inCS_other_false {x y : Pc α}
    (hM : ¬(x.inCS = true ∧ y.inCS = true)) (hx : x.inCS = true) :
    y.inCS = false := by
  rcases hy : y.inCS with _ | _
  · rfl
  · exact absurd ⟨hx, hy⟩ hM
theorem C4InvAt_step {α : Type} [JsTruthy α] (now : Nat) (lv w : α)
    (hw : JsTruthy.truthy w = true) (x y : Pc α) (c : MemCache α) (cnt : Nat)
    (h : C4InvAt now lv w x y c cnt) :
    C4InvAt now lv w (stepProc now (some w) lv true x c cnt).1 y
      (stepProc now (some w) lv true x c cnt).2.1
      (stepProc now (some w) lv true x c cnt).2.2 := by
  obtain ⟨hWF, hL, hM, hD, hC1, hC2, hC3, hX, hY⟩ := h
  have hg : MemCache.memGet now c c4Key = (dataAt c, c) := memGet_of_WF hWF c4Key
  cases x with
  | start =>
    simp only [stepProc, hg]
    rcases hd : dataAt c with _ | v
    · simp only [optTruthy]
      rw [if_neg (by simp)]
      refine ⟨hWF, hL, hM, hD, hC1, hC2, ?_, trivial, hY⟩
      · intro h1
        rcases hC3 h1 with h3 | h3 | h3
        · exact Or.inl h3
        · simp [Pc.isStore] at h3
        · exact Or.inr (Or.inr h3)
    · have hvw : v = w := hD v hd
      subst hvw
      simp only [optTruthy, hw]
      rw [if_pos trivial]
      refine ⟨hWF, hL, hM, hD, hC1, hC2, ?_, ⟨rfl, hC2 (by rw [hd]; simp)⟩, hY⟩
      · intro h1
        rcases hC3 h1 with h3 | h3 | h3
        · exact Or.inl h3
        · simp [Pc.isStore] at h3
        · exact Or.inr (Or.inr h3)
  | testLock =>
    have he : MemCache.memExists now c c4LockKey = (c.containsKey c4LockKey, c) := by
      rw [memExists_of_WF hWF, containsKey_eq_isSome]
    simp only [stepProc, he]
    rcases hy : y.inCS with _ | _
    · have hck : c.containsKey c4LockKey = false := by
        rw [hL, hy]
        rfl
      rw [hck]
      rw [if_neg (by simp)]
      rw [if_pos trivial]
      rw [memSet_lockEntry]
      refine ⟨C4WF_mapSet hWF _ _ (Or.inl ⟨rfl, rfl⟩), ?_, ?_, ?_, hC1, ?_, ?_, trivial, ?_⟩
      · rw [containsKey_mapSet, if_pos rfl]
        simp [Pc.inCS, hy]
      · intro hh
        rw [hy] at hh
        exact absurd hh.2 (by simp)
      · intro v hv
        rw [dataAt_mapSet, if_neg c4Key_ne_lockKey] at hv
        exact hD v hv
      · rw [dataAt_mapSet, if_neg c4Key_ne_lockKey]
        exact hC2
      · intro h1
        rw [dataAt_mapSet, if_neg c4Key_ne_lockKey]
        rcases hC3 h1 with h3 | h3 | h3
        · exact Or.inl h3
        · simp [Pc.isStore] at h3
        · exact Or.inr (Or.inr h3)
      · rw [dataAt_mapSet, if_neg c4Key_ne_lockKey]
        exact hY
    · have hck : c.containsKey c4LockKey = true := by
        rw [hL, hy]
        rfl
      rw [hck, if_pos rfl]
      exact ⟨hWF, hL, hM, hD, hC1, hC2, hC3, trivial, hY⟩
  | setLock => exact hX.elim
  | check =>
    simp only [stepProc, hg]
    rcases hd : dataAt c with _ | v
    · simp only [optTruthy]
      rw [if_neg (by simp)]
      have hcnt : cnt = 0 := by
        by_cases h1 : cnt = 1
        · exfalso
          rcases hC3 h1 with h3 | h3 | h3
          · rw [hd] at h3
            exact absurd h3 (by simp)
          · simp [Pc.isStore] at h3
          · have hcs := isStore_inCS y h3
            have hyf : y.inCS = false := inCS_other_false hM rfl
            rw [hcs] at hyf
            exact absurd hyf (by simp)
        · omega
      refine ⟨hWF, hL, hM, hD, hC1, hC2, ?_, ⟨hd, hcnt⟩, hY⟩
      · intro h1
        rcases hC3 h1 with h3 | h3 | h3
        · exact Or.inl h3
        · simp [Pc.isStore] at h3
        · exact Or.inr (Or.inr h3)
    · have hvw := hD v hd
      subst hvw
      simp only [optTruthy, hw]
      rw [if_pos trivial]
      refine ⟨hWF, hL, hM, hD, hC1, hC2, ?_, ⟨rfl, hd⟩, hY⟩
      · intro h1
        rcases hC3 h1 with h3 | h3 | h3
        · exact Or.inl h3
        · simp [Pc.isStore] at h3
        · exact Or.inr (Or.inr h3)
  | doFetch =>
    obtain ⟨hdn, hc0⟩ := hX
    simp only [stepProc]
    rw [if_pos hw]
    refine ⟨hWF, hL, hM, hD, by omega, fun _ => by omega,
      fun _ => Or.inr (Or.inl rfl), ⟨rfl, by omega, hdn⟩, ?_⟩
    cases y with
    | start => trivial
    | testLock => trivial
    | setLock => exact hY.elim
    | check => trivial
    | doFetch => exact absurd ⟨rfl, rfl⟩ hM
    | store v2 => exact absurd hY.2.1 (by omega)
    | release r2 => exact absurd hY.2 (by rw [hdn]; simp)
    | done r2 => exact absurd hY.2 (by omega)
  | store v =>
    obtain ⟨hvw, hc1, hdn⟩ := hX
    subst hvw
    simp only [stepProc]
    rw [memSet_dataEntry]
    have hds : dataAt (c.mapSet c4Key ⟨v, some (now + 3600000)⟩) = some v := by
      rw [dataAt_mapSet, if_pos rfl]
    refine ⟨C4WF_mapSet hWF _ _ (Or.inr ⟨rfl, rfl⟩), ?_, hM, ?_, hC1,
      fun _ => hc1, fun _ => by rw [hds]; exact Or.inl rfl, ⟨rfl, hds⟩, ?_⟩
    · rw [containsKey_mapSet, if_neg (fun hh => c4Key_ne_lockKey hh.symm)]
      exact hL
    · intro v' hv'
      rw [hds] at hv'
      exact (Option.some.inj hv').symm
    · cases y with
      | start => trivial
      | testLock => trivial
      | setLock => exact hY.elim
      | check => trivial
      | doFetch => exact absurd ⟨rfl, rfl⟩ hM
      | store v2 => exact absurd ⟨rfl, rfl⟩ hM
      | release r2 => exact absurd ⟨rfl, rfl⟩ hM
      | done r2 => exact hY
  | release r =>
    obtain ⟨hrw, hdw⟩ := hX
    simp only [stepProc, MemCache.memDelete]
    have hda : dataAt ((c.mapDelete c4LockKey).2) = dataAt c := by
      rw [dataAt_mapDelete, if_neg c4Key_ne_lockKey]
    have hyf : y.inCS = false := inCS_other_false hM rfl
    refine ⟨C4WF_mapDelete hWF _, ?_, ?_, ?_, hC1, ?_, ?_,
      ⟨hrw, hC2 (by rw [hdw]; simp)⟩, ?_⟩
    · rw [containsKey_mapDelete, if_pos rfl]
      rw [hyf]
      rfl
    · intro hh
      exact absurd hh.1 (by simp [Pc.inCS])
    · intro v hv
      rw [hda] at hv
      exact hD v hv
    · rw [hda]
      exact hC2
    · intro h1
      rw [hda, hdw]
      exact Or.inl rfl
    · show pcOK w cnt (dataAt ((c.mapDelete c4LockKey).2)) y
      rw [hda]
      exact hY
  | done r =>
    simp only [stepProc]
    exact ⟨hWF, hL, hM, hD, hC1, hC2, hC3, hX, hY⟩
theorem C4InvAt_symm {α : Type} {now : Nat} {lv w : α} {x y : Pc α}
    {c : MemCache α} {cnt : Nat} (h : C4InvAt now lv w x y c cnt) :
    C4InvAt now lv w y x c cnt := by
  obtain ⟨hWF, hL, hM, hD, hC1, hC2, hC3, hX, hY⟩ := h
  refine ⟨hWF, by rw [hL, Bool.or_comm], fun hh => hM ⟨hh.2, hh.1⟩, hD, hC1,
    hC2, ?_, hY, hX⟩
  intro h1
  rcases hC3 h1 with h3 | h3 | h3
  · exact Or.inl h3
  · exact Or.inr (Or.inr h3)
  · exact Or.inr (Or.inl h3)

theorem C4Inv_stepSys {α : Type} [JsTruthy α] (now : Nat) (lv w : α)
    (hw : JsTruthy.truthy w = true) (s : Sys α) (pid : Bool)
    (h : C4Inv now lv w s) :
    C4Inv now lv w (stepSys now (some w) lv true s pid) := by
  obtain ⟨pcA, pcB, cache, cnt⟩ := s
  rcases pid with _ | _
  · unfold stepSys
    rw [if_neg (by simp)]
    exact C4InvAt_symm (C4InvAt_step now lv w hw pcB pcA cache cnt (C4InvAt_symm h))
  · unfold stepSys
    rw [if_pos rfl]
    exact C4InvAt_step now lv w hw pcA pcB cache cnt h

theorem C4Inv_runSys {α : Type} [JsTruthy α] (now : Nat) (lv w : α)
    (hw : JsTruthy.truthy w = true) (sched : List Bool) (s : Sys α)
    (h : C4Inv now lv w s) :
    C4Inv now lv w (runSys now (some w) lv true sched s) := by
  induction sched generalizing s with
  | nil => exact h
  | cons pid rest ih => exact ih _ (C4Inv_stepSys now lv w hw s pid h)

theorem C4Inv_init {α : Type} [JsTruthy α] (now : Nat) (lv w : α) :
    C4Inv now lv w (initSys α) := by
  unfold C4Inv initSys
  dsimp only
  refine ⟨⟨List.nodup_nil, fun p hp => absurd hp (List.not_mem_nil p)⟩,
    rfl, ?_, ?_, by omega, ?_, ?_, trivial, trivial⟩
  · intro hh
    exact absurd hh.1 (by simp [Pc.inCS])
  · intro v hv
    simp [dataAt, MemCache.lookup] at hv
  · intro hh
    exact absurd rfl hh
  · intro h1
    omega

set_option maxHeartbeats 2000000 in
/-- C4 counterexample: the source lock's `tryAcquire` is a non-atomic
`exists`-then-`set`, so two concurrent `readThrough` callers on a cold
key can interleave inside their acquisitions, both enter the critical
section, both pass the double-check, and the fetch callback runs twice —
refuting "fetchFn is invoked exactly once" (no lock ever times out in
this schedule; both callers complete and return the fetched value). -/
theorem stampede_two_fetches_under_interleaving :
    let s := runSys 0 (some (JVal.jobj [("v", .jnum 1)])) (.jstr "lv") false
      [true, false, true, false, true, false, true, false, true, false,
       true, true, false, false] (initSys JVal)
    s.fetchCount = 2 ∧
    s.pcA = .done (some (.jobj [("v", .jnum 1)])) ∧
    s.pcB = .done (some (.jobj [("v", .jnum 1)])) ∧
    s.fetchCount ≠ 1 :=
  ⟨rfl, rfl, rfl, by decide⟩

/-- C4 (amended): with stampede protection enabled and an atomic
set-if-absent lock acquisition (the spec's description of the lock),
every interleaving of two concurrent `readThrough` callers on a cold key
invokes the truthy-valued fetch callback at most once, and every caller
that completes receives the fetched value, by which point the fetch has
run exactly once; with the implemented non-atomic exists-then-set
acquisition this fails (see the counterexample). -/
theorem stampede_atomic_acquire_once {α : Type} [JsTruthy α]
    (now : Nat) (lv w : α) (hw : JsTruthy.truthy w = true)
    (sched : List Bool) :
    (runSys now (some w) lv true sched (initSys α)).fetchCount ≤ 1 ∧
    (∀ r, (runSys now (some w) lv true sched (initSys α)).pcA = .done r →
      r = some w ∧
      (runSys now (some w) lv true sched (initSys α)).fetchCount = 1) ∧
    (∀ r, (runSys now (some w) lv true sched (initSys α)).pcB = .done r →
      r = some w ∧
      (runSys now (some w) lv true sched (initSys α)).fetchCount = 1) := by
  have hInv : C4Inv now lv w (runSys now (some w) lv true sched (initSys α)) :=
    C4Inv_runSys now lv w hw sched (initSys α) (C4Inv_init now lv w)
  obtain ⟨hWF, hL, hM, hD, hC1, hC2, hC3, hX, hY⟩ := hInv
  refine ⟨hC1, ?_, ?_⟩
  · intro r hr
    rw [hr] at hX
    exact hX
  · intro r hr
    rw [hr] at hY
    exact hY

/-- C4 amended witness: the amended theorem applied at a complete
atomic-acquisition schedule in which caller A fetches once and both
callers finish with the fetched value, the truthiness hypothesis
discharged concretely. -/
theorem stampede_atomic_acquire_once_witness :
    (runSys 0 (some (JVal.jobj [("v", JVal.jnum 1)])) (JVal.jstr "lv") true
      [true, true, true, true, true, true, false, false, false, false, false]
      (initSys JVal)).fetchCount ≤ 1 ∧
    (∀ r, (runSys 0 (some (JVal.jobj [("v", JVal.jnum 1)])) (JVal.jstr "lv") true
      [true, true, true, true, true, true, false, false, false, false, false]
      (initSys JVal)).pcA = .done r →
      r = some (JVal.jobj [("v", JVal.jnum 1)]) ∧
      (runSys 0 (some (JVal.jobj [("v", JVal.jnum 1)])) (JVal.jstr "lv") true
        [true, true, true, true, true, true, false, false, false, false, false]
        (initSys JVal)).fetchCount = 1) ∧
    (∀ r, (runSys 0 (some (JVal.jobj [("v", JVal.jnum 1)])) (JVal.jstr "lv") true
      [true, true, true, true, true, true, false, false, false, false, false]
      (initSys JVal)).pcB = .done r →
      r = some (JVal.jobj [("v", JVal.jnum 1)]) ∧
      (runSys 0 (some (JVal.jobj [("v", JVal.jnum 1)])) (JVal.jstr "lv") true
        [true, true, true, true, true, true, false, false, false, false, false]
        (initSys JVal)).fetchCount = 1) :=
  stampede_atomic_acquire_once 0 (JVal.jstr "lv") (JVal.jobj [("v", JVal.jnum 1)]) rfl
    [true, true, true, true, true, true, false, false, false, false, false]
